import Mathlib

/-!
Verification of the Symmetric Interaction Calculus evaluator.

This file gives a shallow embedding of the two source modules:

* `term.rs`: the surface term type, name generation (`new_name` / `name_idx`),
  the byte-level reader (`parse_name` / `parse_term` / `from_string`), the
  printer (`to_string`), and the encoder to interaction-combinator nets
  (`to_net`).
* `net.rs`: the node arena (`Net`, `link`/`addr`/`port`, `enter`, `kind`,
  `connect`, `new_node`), the rewriter (`rewrite`) and the lazy sequential
  reducer (`reduce`).

Rust `Vec<u32>` buffers are embedded as `List Nat`; the `u32` arithmetic never
overflows in the claims considered, so plain `Nat` is used.  Rust `Vec` used as
a stack (push/pop at the end) is embedded as a cons list with push/pop at the
head, which realises the same stack discipline.  `HashMap` scope tables are
embedded as association lists with overwriting insert; their (unspecified)
iteration order is taken to be insertion order.  Functions that can panic or
diverge are embedded with `Option`/`Except` results and, where the source
recursion is not structural, an explicit fuel parameter (`none` = no result
within the given fuel).
-/

namespace SIC

/-- ASCII bytes of a string literal, for readable test inputs. -/
def bytes (s : String) : List Nat := s.toList.map Char.toNat

/-! ## Surface terms (`term.rs`, `enum Term`) -/

/-- Terms of the Abstract Calculus (`enum Term` in `term.rs`).
Names are ASCII byte strings. -/
inductive Term where
  | Lam (nam : List Nat) (bod : Term)
  | App (fn : Term) (arg : Term)
  | Par (fst : Term) (snd : Term)
  | Dup (fst : List Nat) (snd : List Nat) (val : Term) (nxt : Term)
  | Var (nam : List Nat)
  | Set
deriving DecidableEq, Repr

/-! ## Name generation (`new_name`, `name_idx`) -/

/-- `new_name` from `term.rs`: builds a var name from a 1-based index by the
loop `while idx > 0 { idx -= 1; push(97 + idx % 26); idx /= 26 }`.  The Rust
loop pushes at the end of the vector; the first pushed byte is the first byte
of the name, matching the cons below. -/
def new_name (idx : Nat) : List Nat :=
  if h : idx = 0 then []
  else (97 + (idx - 1) % 26) :: new_name ((idx - 1) / 26)
decreasing_by
  exact Nat.lt_of_le_of_lt (Nat.div_le_self _ _) (by omega)

/-- `name_idx` from `term.rs`: folds over the bytes in reverse with
`idx = idx * 26 + (byte - 97) + 1`, starting from 0. -/
def name_idx (name : List Nat) : Nat :=
  name.reverse.foldl (fun idx byte => idx * 26 + (byte - 97) + 1) 0

/-! ## Byte classification used by `parse_name` -/

/-- Whitespace bytes skipped by the reader: space, LF, CR. -/
def isWS (c : Nat) : Bool := c == 32 || c == 10 || c == 13

/-- The non-whitespace reserved bytes tested inside `parse_name`'s skip loop:
`\\ / | = # *`. -/
def isReserved (c : Nat) : Bool :=
  c == 92 || c == 47 || c == 124 || c == 61 || c == 35 || c == 42

/-- A byte that terminates a name in `parse_name`'s second loop:
whitespace or one of the reserved bytes. -/
def isNameDelim (c : Nat) : Bool := isWS c || isReserved c

/-- The whitespace-skipping loop of `parse_name` (`term.rs` lines 73-82).
Inside the loop body, while the current byte is whitespace, the source panics
when that same byte is one of the reserved bytes (modelled as `none`). -/
def skip_ws : List Nat → Option (List Nat)
  | [] => some []
  | c :: cs =>
    if isWS c then (if isReserved c then none else skip_ws cs)
    else some (c :: cs)

/-- The name-collecting loop of `parse_name` (`term.rs` lines 84-91): take the
maximal run of non-delimiter bytes; returns (name, rest). -/
def take_name : List Nat → List Nat × List Nat
  | [] => ([], [])
  | c :: cs =>
    if isNameDelim c then ([], c :: cs)
    else
      let r := take_name cs
      (c :: r.1, r.2)

/-- `parse_name` from `term.rs`: skips whitespace (possibly panicking, see
`skip_ws`), then collects a maximal run of non-delimiter bytes.  Returns
(remaining code, name), as in the source. -/
def parse_name (code : List Nat) : Option (List Nat × List Nat) :=
  (skip_ws code).map (fun c2 => ((take_name c2).2, (take_name c2).1))

/-! ## Namespacing and copy (`namespace`, `copy`) -/

/-- `namespace` from `term.rs`: prefix a name with `space#idx#` unless the
name is the reserved `-`. -/
def namespace_ (space : List Nat) (idx : Nat) (var : List Nat) : List Nat :=
  if var ≠ bytes "-" then
    space ++ bytes "#" ++ bytes (toString idx) ++ bytes "#" ++ var
  else var

/-- `copy` from `term.rs`: a namespaced copy of a term. -/
def copy (space : List Nat) (idx : Nat) : Term → Term
  | .Lam nam bod => .Lam (namespace_ space idx nam) (copy space idx bod)
  | .App fn arg => .App (copy space idx fn) (copy space idx arg)
  | .Par fst snd => .Par (copy space idx fst) (copy space idx snd)
  | .Dup fst snd val nxt =>
      .Dup (namespace_ space idx fst) (namespace_ space idx snd)
        (copy space idx val) (copy space idx nxt)
  | .Var nam => .Var (namespace_ space idx nam)
  | .Set => .Set

/-! ## The term reader (`parse_term`, `from_string`)

`parse_term` in the source is a recursive function on byte slices whose
recursion is not structural (the `|` arm recurses on the *same* slice), so the
embedding takes a fuel parameter; `none` means no result within the fuel
(covering both divergence and the source's panics, e.g. indexing an empty
slice).  The source threads `ctx : &mut Vec` with balanced `extend`/`narrow`
push/pops around every recursive call, so the context is passed down
functionally; `idx : &mut u32` has its value threaded through the result.
The result is (remaining code, term, final idx), mirroring the source's
return value plus the mutable index. -/

/-- A context entry: name, and an optional definition body (for `:`). -/
abbrev Ctx := List (List Nat × Option Term)

/-- `parse_term` from `term.rs`.  Byte dispatch: `(` 40, `)` 41, space 32,
LF 10, CR 13, `\` 92, `/` 47, `|` 124, `=` 61, `:` 58, `*` 42. -/
def parse_term : Nat → List Nat → Ctx → Nat → Nat →
    Option (List Nat × Term × Nat)
  | 0, _, _, _, _ => none
  | _ + 1, [], _, _, _ => none
  | fuel + 1, c :: cs, ctx, idx, comment =>
    if comment > 0 then
      if c = 40 then parse_term fuel cs ctx idx (comment + 1)
      else if c = 41 then
        parse_term fuel cs ctx idx (comment - if comment = 0 then 0 else 1)
      else parse_term fuel cs ctx idx comment
    else
      if c = 32 ∨ c = 10 ∨ c = 13 then parse_term fuel cs ctx idx comment
      else if c = 40 then parse_term fuel cs ctx idx (comment + 1)
      else if c = 92 then
        -- Abstraction
        match parse_name cs with
        | none => none
        | some (code1, nam) =>
          match parse_term fuel code1 ((nam, none) :: ctx) idx comment with
          | none => none
          | some (code2, bod, idx1) => some (code2, .Lam nam bod, idx1)
      else if c = 47 then
        -- Application
        match parse_term fuel cs ctx idx comment with
        | none => none
        | some (code1, fn, idx1) =>
          match parse_term fuel code1 ctx idx1 comment with
          | none => none
          | some (code2, arg, idx2) => some (code2, .App fn arg, idx2)
      else if c = 124 then
        -- Pair: the source recurses on `code`, not `&code[1..]` — the `|`
        -- byte is never consumed.
        match parse_term fuel (c :: cs) ctx idx comment with
        | none => none
        | some (code1, fst, idx1) =>
          match parse_term fuel code1 ctx idx1 comment with
          | none => none
          | some (code2, snd, idx2) => some (code2, .Par fst snd, idx2)
      else if c = 61 then
        -- Duplication: the second `parse_name` is applied to `&code[1..]` of
        -- the code remaining after the first name (a panic when it is empty).
        match parse_name cs with
        | none => none
        | some (code1, fst) =>
          match code1 with
          | [] => none
          | _ :: code1t =>
            match parse_name code1t with
            | none => none
            | some (code2, snd) =>
              match parse_term fuel code2 ((fst, none) :: (snd, none) :: ctx)
                  idx comment with
              | none => none
              | some (code3, val, idx1) =>
                match parse_term fuel code3
                    ((fst, none) :: (snd, none) :: ctx) idx1 comment with
                | none => none
                | some (code4, nxt, idx2) =>
                  some (code4, .Dup fst snd val nxt, idx2)
      else if c = 58 then
        -- Definition
        match parse_name cs with
        | none => none
        | some (code1, nam) =>
          match parse_term fuel code1 ctx idx comment with
          | none => none
          | some (code2, val, idx1) =>
            match parse_term fuel code2 ((nam, some val) :: ctx) idx1
                comment with
            | none => none
            | some (code3, bod, idx2) => some (code3, bod, idx2)
      else if c = 42 then some (cs, .Set, idx)
      else
        -- Variable
        match parse_name (c :: cs) with
        | none => none
        | some (code1, nam) =>
          match ctx.find? (fun e => e.1 == nam) with
          | some (_, some t) => some (code1, copy nam idx t, idx + 1)
          | some (_, none) => some (code1, .Var nam, idx)
          | none => some (code1, .Var nam, idx)

/-- `from_string` from `term.rs`, with fuel for `parse_term`. -/
def from_string (fuel : Nat) (code : List Nat) : Option Term :=
  (parse_term fuel code [] 0 0).map (fun r => r.2.1)

/-! ## The printer (`to_string`) -/

/-- `stringify_term` from `term.rs`, as a pure concatenation. -/
def to_string : Term → List Nat
  | .Lam nam bod => bytes "\\" ++ nam ++ bytes " " ++ to_string bod
  | .App fn arg => bytes "/" ++ to_string fn ++ bytes " " ++ to_string arg
  | .Par fst snd =>
      bytes "|" ++ bytes " " ++ to_string fst ++ bytes " " ++ to_string snd
  | .Dup fst snd val nxt =>
      bytes "=" ++ bytes " " ++ fst ++ bytes " " ++ snd ++ bytes " " ++
        to_string val ++ bytes "\n" ++ to_string nxt
  | .Set => bytes "*"
  | .Var nam => nam

/-! ## The net arena (`net.rs`) -/

/-- Reduction statistics (`struct Stats` in `net.rs`). -/
structure Stats where
  loops : Nat
  rules : Nat
  betas : Nat
  dupls : Nat
  annis : Nat
deriving DecidableEq, Repr

/-- The node arena (`struct Net` in `net.rs`): a flat cell buffer (four cells
per node) and a free list of reclaimed node indices.  `Vec::pop`/`push` act on
the end of the Rust vector; the embedding keeps the stack top at the head. -/
structure Net where
  nodes : List Nat
  reuse : List Nat
deriving DecidableEq, Repr

/-- Node kind `ERA` (0). -/
def ERA : Nat := 0

/-- Node kind `CON` (1). -/
def CON : Nat := 1

/-- Node kind `FAN` (2). -/
def FAN : Nat := 2

/-- `link` from `net.rs`: `(node << 2) | port`.  For ports `< 4` this equals
`4 * node + port`. -/
def link (node port : Nat) : Nat := 4 * node + port

/-- `addr` from `net.rs`: `link >> 2`. -/
def addr (l : Nat) : Nat := l / 4

/-- `port` from `net.rs`: `link & 3`. -/
def port (l : Nat) : Nat := l % 4

/-- `enter` from `net.rs`: read the cell at a link. -/
def enter (net : Net) (l : Nat) : Nat := net.nodes.getD l 0

/-- `kind` from `net.rs`: the fourth cell of a node. -/
def kind (net : Net) (node : Nat) : Nat := net.nodes.getD (link node 3) 0

/-- `connect` from `net.rs`: `nodes[a] = b; nodes[b] = a` (in that order). -/
def connect (net : Net) (a b : Nat) : Net :=
  { net with nodes := (net.nodes.set a b).set b a }

/-- `new_node` from `net.rs`: reclaim a freed index if possible, otherwise
grow the buffer by four zero cells; then initialise the three port cells to
self-loops and the fourth to the kind.  Returns the updated net and the node
index. -/
def new_node (net : Net) (k : Nat) : Net × Nat :=
  let p : Net × Nat :=
    match net.reuse with
    | n :: rest => ({ net with reuse := rest }, n)
    | [] =>
      let len := net.nodes.length
      ({ net with nodes := net.nodes ++ List.replicate 4 0 }, len / 4)
  let node := p.2
  let nodes1 :=
    ((((p.1.nodes.set (link node 0) (link node 0)).set
        (link node 1) (link node 1)).set
        (link node 2) (link node 2)).set
        (link node 3) k)
  ({ p.1 with nodes := nodes1 }, node)

/-- `rewrite` from `net.rs`: apply one interaction to the active pair `(x, y)`.
Same kinds: annihilation (splice the auxiliary ports across, sequentially, and
free both nodes — `reuse.push(x); reuse.push(y)` leaves `y` on top).
Different kinds: commutation (allocate `a` and `b`, then the eight `connect`
calls of the source, in order, each reading the net as already updated). -/
def rewrite (net : Net) (x y : Nat) : Net :=
  if kind net x = kind net y then
    let p0 := enter net (link x 1)
    let p1 := enter net (link y 1)
    let net1 := connect net p0 p1
    let q0 := enter net1 (link x 2)
    let q1 := enter net1 (link y 2)
    let net2 := connect net1 q0 q1
    { net2 with reuse := y :: x :: net2.reuse }
  else
    let r1 := new_node net (kind net x)
    let a := r1.2
    let r2 := new_node r1.1 (kind r1.1 y)
    let b := r2.2
    let net2 := r2.1
    let t1 := enter net2 (link x 1)
    let net3 := connect net2 (link b 0) t1
    let t2 := enter net3 (link x 2)
    let net4 := connect net3 (link y 0) t2
    let t3 := enter net4 (link y 1)
    let net5 := connect net4 (link a 0) t3
    let t4 := enter net5 (link y 2)
    let net6 := connect net5 (link x 0) t4
    let net7 := connect net6 (link a 1) (link b 1)
    let net8 := connect net7 (link a 2) (link y 1)
    let net9 := connect net8 (link x 1) (link b 2)
    connect net9 (link x 2) (link y 2)

/-! ## The reducer (`reduce` in `net.rs`)

The walk loop is embedded as a fueled tail recursion over the loop state
(net, schedule stack, exit stack, current link, stats).  The source's
`schedule.pop().unwrap()` only runs when the loop condition guarantees a
non-empty schedule; `exit.pop().unwrap()` is not guarded, so an empty exit
stack at an active pair is a panic, embedded as `.trap`.  `.out` means the
fuel ran out before the loop finished. -/

/-- Result of running the reducer: normal completion with the final net and
stats, a panic (`trap`), or fuel exhaustion (`out`). -/
inductive RRes where
  | ok (net : Net) (stats : Stats)
  | trap
  | out
deriving DecidableEq, Repr

/-- The body of `reduce`'s while loop, one iteration per unit of fuel. -/
def reduce_go : Nat → Net → List Nat → List Nat → Nat → Stats → RRes
  | 0, _, _, _, _, _ => .out
  | fuel + 1, net, schedule, exit, next, stats =>
    if next > 0 ∨ schedule ≠ [] then
      -- `schedule.pop().unwrap()` runs only under `next == 0`, when the loop
      -- condition guarantees a non-empty schedule, so `headD`/`tail` realise
      -- it exactly there.
      let popped : Nat × List Nat :=
        if next = 0 then (enter net (schedule.headD 0), schedule.tail)
        else (next, schedule)
      let next1 := popped.1
      let schedule1 := popped.2
      let prev := enter net next1
      if port next1 = 0 ∧ port prev = 0 ∧ addr prev ≠ 0 then
        -- `exit.pop().unwrap()` is unguarded: an empty exit stack is a panic.
        if exit = [] then .trap
        else
          let e := exit.headD 0
          let exit1 := exit.tail
          let back := enter net (link (addr prev) e)
          let net1 := rewrite net (addr prev) (addr next1)
          reduce_go fuel net1 schedule1 exit1 (enter net1 back)
            { stats with rules := stats.rules + 1, loops := stats.loops + 1 }
      else if port next1 = 0 then
        reduce_go fuel net (link (addr next1) 2 :: schedule1) exit
          (enter net (link (addr next1) 1))
          { stats with loops := stats.loops + 1 }
      else
        reduce_go fuel net schedule1 (port next1 :: exit)
          (enter net (link (addr next1) 0))
          { stats with loops := stats.loops + 1 }
    else .ok net stats

/-- `reduce` from `net.rs`: run the walk from the root's port-0 link with
fresh stats. -/
def reduce (fuel : Nat) (net : Net) : RRes :=
  reduce_go fuel net [] [] (net.nodes.getD 0 0) ⟨0, 0, 0, 0, 0⟩

/-! ## The encoder (`to_net` in `term.rs`)

The scope `HashMap<Vec<u8>, u32>` is embedded as an association list with
overwriting insert; its unspecified iteration order is taken to be insertion
order.  The pending-variable vector `vars` keeps the source's push order
(append at the end).  `to_net` panics on an unbound variable or a variable
used more than once; both are embedded as `Except.error`. -/

/-- Scope table: binder name to the link where the binder attaches. -/
abbrev Scope := List (List Nat × Nat)

/-- `HashMap::insert`: overwrite the entry for the key if present, otherwise
append it. -/
def scope_insert (m : Scope) (k : List Nat) (v : Nat) : Scope :=
  match m with
  | [] => [(k, v)]
  | (k1, v1) :: rest =>
    if k1 = k then (k, v) :: rest else (k1, v1) :: scope_insert rest k v

/-- `HashMap::get`. -/
def scope_get (m : Scope) (k : List Nat) : Option Nat :=
  (m.find? (fun e => e.1 == k)).map (fun e => e.2)

/-- `encode_term` from `term.rs`: walk the term, allocate nodes, record
binders in `scope` and pending variable occurrences in `vars`; return the
updated state and the link at which the term hangs. -/
def encode_term (net : Net) (t : Term) (up : Nat) (scope : Scope)
    (vars : List (List Nat × Nat)) :
    Net × Scope × List (List Nat × Nat) × Nat :=
  match t with
  | .Lam nam bod =>
    let r := new_node net CON
    let fn := r.2
    let net1 := r.1
    let scope1 := scope_insert scope nam (link fn 1)
    let net2 :=
      if nam = bytes "_" then
        let re := new_node net1 ERA
        let era := re.2
        let netA := connect re.1 (link era 1) (link era 2)
        connect netA (link fn 1) (link era 0)
      else net1
    let rb := encode_term net2 bod (link fn 2) scope1 vars
    let net3 := connect rb.1 (link fn 2) rb.2.2.2
    (net3, rb.2.1, rb.2.2.1, link fn 0)
  | .App fn arg =>
    let r := new_node net CON
    let app := r.2
    let ra := encode_term r.1 fn (link app 0) scope vars
    let net1 := connect ra.1 (link app 0) ra.2.2.2
    let rb := encode_term net1 arg (link app 1) ra.2.1 ra.2.2.1
    let net2 := connect rb.1 (link app 1) rb.2.2.2
    (net2, rb.2.1, rb.2.2.1, link app 2)
  | .Par fst snd =>
    let r := new_node net FAN
    let dup := r.2
    let ra := encode_term r.1 fst (link dup 1) scope vars
    let net1 := connect ra.1 (link dup 1) ra.2.2.2
    let rb := encode_term net1 snd (link dup 2) ra.2.1 ra.2.2.1
    let net2 := connect rb.1 (link dup 2) rb.2.2.2
    (net2, rb.2.1, rb.2.2.1, link dup 0)
  | .Dup fst snd val nxt =>
    let r := new_node net FAN
    let dup := r.2
    let scope1 := scope_insert scope fst (link dup 1)
    let scope2 := scope_insert scope1 snd (link dup 2)
    let net1 :=
      if fst = bytes "-" then
        let re := new_node r.1 ERA
        let era := re.2
        let netA := connect re.1 (link era 1) (link era 2)
        connect netA (link dup 1) (link era 0)
      else r.1
    let net2 :=
      if snd = bytes "-" then
        let re := new_node net1 ERA
        let era := re.2
        let netA := connect re.1 (link era 1) (link era 2)
        connect netA (link dup 2) (link era 0)
      else net1
    let ra := encode_term net2 val (link dup 0) scope2 vars
    let net3 := connect ra.1 ra.2.2.2 (link dup 0)
    encode_term net3 nxt up ra.2.1 ra.2.2.1
  | .Set =>
    let r := new_node net ERA
    let set := r.2
    let net1 := connect r.1 (link set 1) (link set 2)
    (net1, scope, vars, link set 0)
  | .Var nam => (net, scope, vars ++ [(nam, up)], up)

/-- Encoding errors: the two panics of `to_net`'s variable-linking loop. -/
inductive NetErr where
  | unbound (nam : List Nat)
  | dupUse (nam : List Nat)
deriving DecidableEq, Repr

/-- The variable-linking loop of `to_net`: for each pending `(name, var)` in
order, look the name up in the scope; panic if absent, panic if the binder
port is already connected, otherwise connect. -/
def link_vars (net : Net) (scope : Scope) :
    List (List Nat × Nat) → Except NetErr Net
  | [] => .ok net
  | (nam, var) :: rest =>
    match scope_get scope nam with
    | some next =>
      if enter net next = next then
        link_vars (connect net var next) scope rest
      else .error (.dupUse nam)
    | none => .error (.unbound nam)

/-- The final scope loop of `to_net`: connect every binder port that is still
a self-loop to a fresh erase node.  Iteration is in the model's scope order
(insertion order). -/
def erase_unused (net : Net) : Scope → Net
  | [] => net
  | (_, a) :: rest =>
    if enter net a = a then
      let re := new_node net ERA
      let era := re.2
      let net1 := connect re.1 (link era 1) (link era 2)
      erase_unused (connect net1 a (link era 0)) rest
    else erase_unused net rest

/-- `to_net` from `term.rs`: root node `[0, 2, 1, 4]`, encode the term with
`up = 0`, link the pending variables, erase unused binders, and connect the
root to the main link. -/
def to_net (t : Term) : Except NetErr Net :=
  let net0 : Net := ⟨[0, 2, 1, 4], []⟩
  let r := encode_term net0 t 0 [] []
  let net1 := r.1
  let scope := r.2.1
  let vars := r.2.2.1
  let main := r.2.2.2
  match link_vars net1 scope vars with
  | .error e => .error e
  | .ok net2 =>
    let net3 := erase_unused net2 scope
    .ok (connect net3 0 main)

/-! ## Derived notions used in the claim statements -/

/-- The names of all variable occurrences of a term. -/
def varNames : Term → List (List Nat)
  | .Lam _ bod => varNames bod
  | .App fn arg => varNames fn ++ varNames arg
  | .Par fst snd => varNames fst ++ varNames snd
  | .Dup _ _ val nxt => varNames val ++ varNames nxt
  | .Var nam => [nam]
  | .Set => []

/-- The names of all `Lam` and `Dup` binders of a term. -/
def binderNames : Term → List (List Nat)
  | .Lam nam bod => nam :: binderNames bod
  | .App fn arg => binderNames fn ++ binderNames arg
  | .Par fst snd => binderNames fst ++ binderNames snd
  | .Dup fst snd val nxt => fst :: snd :: (binderNames val ++ binderNames nxt)
  | .Var _ => []
  | .Set => []

/-- A name that round-trips through printing: nonempty and free of the
reader's delimiter bytes. -/
def good_name (n : List Nat) : Bool :=
  !(n.isEmpty) && n.all (fun c => !(isNameDelim c))

/-- Terms whose printed form can be read back verbatim: no `Par` (whose `|`
byte the reader never consumes), every name nonempty and delimiter-free, and
variable names not beginning with the dispatch bytes `:` (58) or `(` (40). -/
def printable : Term → Bool
  | .Lam nam bod => good_name nam && printable bod
  | .App fn arg => printable fn && printable arg
  | .Par _ _ => false
  | .Dup fst snd val nxt =>
      good_name fst && good_name snd && printable val && printable nxt
  | .Var nam =>
      good_name nam &&
        (match nam with
         | c :: _ => !(c == 58 || c == 40)
         | [] => false)
  | .Set => true

/-- Terms in locally-nameless (de Bruijn) form, for α-equivalence. -/
inductive DTerm where
  | dlam (bod : DTerm)
  | dapp (fn : DTerm) (arg : DTerm)
  | dpar (fst : DTerm) (snd : DTerm)
  | ddup (val : DTerm) (nxt : DTerm)
  | dbvar (i : Nat)
  | dfvar (nam : List Nat)
  | dset
deriving DecidableEq, Repr

/-- De Bruijn conversion: a variable becomes the index of the innermost
enclosing binder of its name, or stays free.  A `Dup` binds its first name at
index 0 and its second at index 1 in `nxt` only. -/
def toDB (env : List (List Nat)) : Term → DTerm
  | .Lam nam bod => .dlam (toDB (nam :: env) bod)
  | .App fn arg => .dapp (toDB env fn) (toDB env arg)
  | .Par fst snd => .dpar (toDB env fst) (toDB env snd)
  | .Dup fst snd val nxt =>
      .ddup (toDB env val) (toDB (fst :: snd :: env) nxt)
  | .Var nam =>
      match List.indexOf? nam env with
      | some i => .dbvar i
      | none => .dfvar nam
  | .Set => .dset

/-- α-equivalence of terms: equality of de Bruijn forms. -/
def alpha_eq (t u : Term) : Prop := toDB [] t = toDB [] u

/-- Number of live nodes of a net: allocated node indices not on the free
list. -/
def live_count (net : Net) : Nat :=
  ((Finset.range (net.nodes.length / 4)).filter
    (fun n => n ∉ net.reuse)).card

/-- Link reciprocity of every live port: for every in-bounds non-kind cell of
a node not on the free list, following the stored link twice returns to the
port. -/
def Reciprocal (net : Net) : Prop :=
  ∀ p < net.nodes.length, port p ≠ 3 → addr p ∉ net.reuse →
    enter net (enter net p) = p

/-- A well-formed net state: four cells per node, a sound free list, and the
live ports closed under `enter`, reciprocal, and free of self-loops. -/
def GoodNet (net : Net) : Prop :=
  net.nodes.length % 4 = 0 ∧
  net.reuse.Nodup ∧
  (∀ r ∈ net.reuse, r ≠ 0 ∧ 4 * r + 3 < net.nodes.length) ∧
  ∀ p < net.nodes.length, port p ≠ 3 → addr p ∉ net.reuse →
    (enter net p < net.nodes.length ∧ port (enter net p) ≠ 3 ∧
      addr (enter net p) ∉ net.reuse ∧
      enter net (enter net p) = p ∧ enter net p ≠ p)

instance (net : Net) : Decidable (Reciprocal net) := by
  unfold Reciprocal
  infer_instance

instance (net : Net) : Decidable (GoodNet net) := by
  unfold GoodNet
  refine @And.decidable _ _ ?_ ?_
  · infer_instance
  refine @And.decidable _ _ ?_ ?_
  · infer_instance
  refine @And.decidable _ _ ?_ ?_
  · infer_instance
  exact Nat.decidableBallLT _ _

/-- The reducer makes no progress on the net within any fuel bound. -/
def spins (net : Net) : Prop := ∀ fuel, reduce fuel net = RRes.out

/-! ## Concrete inputs used by the claim theorems -/

/-- `/\\x x *` — one beta redex. -/
def tBeta : Term := .App (.Lam (bytes "x") (.Var (bytes "x"))) .Set

/-- The net encoded from `tBeta`. -/
def netBeta : Net :=
  match to_net tBeta with
  | .ok n => n
  | .error _ => ⟨[], []⟩

/-- `= a b * a` — the duplication whose term position is a bound variable. -/
def tDupVar : Term := .Dup (bytes "a") (bytes "b") .Set (.Var (bytes "a"))

/-- The net encoded from `tDupVar`. -/
def netDupVar : Net :=
  match to_net tDupVar with
  | .ok n => n
  | .error _ => ⟨[], []⟩

/-- `/a \\a *` — the argument variable `a` occurs outside the body of the
lambda that binds `a`. -/
def tCycle : Term := .App (.Var (bytes "a")) (.Lam (bytes "a") .Set)

/-- The net encoded from `tCycle`. -/
def netCycle : Net :=
  match to_net tCycle with
  | .ok n => n
  | .error _ => ⟨[], []⟩

/-- A net holding an active CON/FAN pair at nodes 1 and 2 with a free list
entry (node 3), used to exercise commutation. -/
def netComm : Net :=
  ⟨[0, 2, 1, 4, 8, 5, 6, 1, 4, 9, 10, 2, 0, 0, 0, 0], [3]⟩

/-- A fully connected well-formed net with an active CON/FAN pair at nodes 1
and 2 and no self-loops: root port 0 to node 1 port 1, nodes 1 and 2 facing
each other at their principal ports, and an ERA (node 3) closing the rest. -/
def netGood : Net :=
  ⟨[5, 2, 1, 4, 8, 0, 9, 1, 4, 6, 12, 2, 10, 14, 13, 0], []⟩

/-- `\\x //x x y` — the bound `x` is used twice and `y` is unbound. -/
def tDupUnbound : Term :=
  .Lam (bytes "x")
    (.App (.App (.Var (bytes "x")) (.Var (bytes "x"))) (.Var (bytes "y")))

/-- `/\\x * x` — the argument variable `x` occurs outside the lambda's body
but is connected to its binder port. -/
def tOutside : Term := .App (.Lam (bytes "x") .Set) (.Var (bytes "x"))

/-- `/\\x x \\x *` — two binders named `x`; the variable inside the first
lambda is linked to the later-encoded second binder. -/
def tShadow : Term :=
  .App (.Lam (bytes "x") (.Var (bytes "x"))) (.Lam (bytes "x") .Set)

/-- Source text `:i \\x x i`: the definition is copied on use, so the reader
produces a term whose names carry the `#` namespacing byte. -/
def inRound : List Nat := bytes ":i \\x x i"

/-! # Helper lemmas -/


/-- The term the reader produces from `inRound`: the copied definition body
carries `#`-namespaced names. -/
def tRound : Term := .Lam (bytes "i#0#x") (.Var (bytes "i#0#x"))

instance (t u : Term) : Decidable (alpha_eq t u) := by
  unfold alpha_eq
  infer_instance

theorem name_idx_cons (c : Nat) (l : List Nat) :
    name_idx (c :: l) = name_idx l * 26 + (c - 97) + 1 := by
  simp [name_idx, List.foldl_append]

theorem name_idx_new_name : ∀ i, name_idx (new_name i) = i := by
  intro i
  induction i using Nat.strong_induction_on with
  | _ i ih =>
    by_cases h : i = 0
    · subst h
      rw [new_name]
      simp [name_idx]
    · rw [new_name]
      rw [dif_neg h, name_idx_cons]
      have h2 : (i - 1) / 26 < i :=
        Nat.lt_of_le_of_lt (Nat.div_le_self _ _) (by omega)
      rw [ih _ h2]
      have h3 := Nat.div_add_mod (i - 1) 26
      omega

theorem skip_ws_ne_none : ∀ code, skip_ws code ≠ none := by
  intro code
  induction code with
  | nil => simp [skip_ws]
  | cons c cs ih =>
    rw [skip_ws]
    by_cases h : isWS c = true
    · have hr : isReserved c = false := by
        have : c = 32 ∨ c = 10 ∨ c = 13 := by
          simp [isWS] at h
          omega
        rcases this with h1 | h1 | h1 <;> subst h1 <;> decide
      simp [h, hr, ih]
    · simp [h]

/-! # Claim theorems -/

/-- Claim C8, counterexample: `new_name` emits the least significant letter
first, so the 28th name is `ba`, not `ab`. -/
theorem new_name_28_cex :
    new_name 28 = bytes "ba" ∧ new_name 28 ≠ bytes "ab" := by
  constructor
  · rw [new_name, dif_neg (by norm_num), new_name, dif_neg (by norm_num),
      new_name]
    simp [bytes]
  · rw [new_name, dif_neg (by norm_num), new_name, dif_neg (by norm_num),
      new_name]
    simp [bytes]

/-- Claim C8 (amended): for `i ≥ 1`, `new_name i` is the `i`-th name of the
sequence `a, b, …, z, aa, ba, ca, …` (least significant letter first), with
`new_name 1 = a`, `new_name 26 = z`, `new_name 27 = aa`, `new_name 28 = ba`,
and `name_idx (new_name i) = i`. -/
theorem new_name_sequence (i : Nat) (h : 1 ≤ i) :
    name_idx (new_name i) = i ∧ new_name 1 = bytes "a" ∧
    new_name 26 = bytes "z" ∧ new_name 27 = bytes "aa" ∧
    new_name 28 = bytes "ba" := by
  refine ⟨name_idx_new_name i, ?_, ?_, ?_, ?_⟩
  · rw [new_name, dif_neg (by norm_num), new_name]
    simp [bytes]
  · rw [new_name, dif_neg (by norm_num), new_name]
    simp [bytes]
  · rw [new_name, dif_neg (by norm_num), new_name, dif_neg (by norm_num),
      new_name]
    simp [bytes]
  · rw [new_name, dif_neg (by norm_num), new_name, dif_neg (by norm_num),
      new_name]
    simp [bytes]

/-- Witness for C8 at `i = 5`. -/
theorem new_name_sequence_witness :
    name_idx (new_name 5) = 5 ∧ new_name 1 = bytes "a" ∧
    new_name 26 = bytes "z" ∧ new_name 27 = bytes "aa" ∧
    new_name 28 = bytes "ba" :=
  new_name_sequence 5 (by norm_num)

/-- Claim C1: false — the `|` arm of `parse_term` recurses on the same slice
without consuming the `|` byte, so on any input whose next byte is `|` (in
non-comment mode) the source recurses forever; the embedding returns `none`
at every fuel. -/
theorem parse_term_par_diverges (fuel : Nat) (code : List Nat) (ctx : Ctx)
    (idx : Nat) : parse_term fuel (124 :: code) ctx idx 0 = none := by
  induction fuel with
  | zero => rfl
  | succ f ih =>
    rw [parse_term]
    simp [ih]

/-- Claim C7: false — the delimiter check of `parse_name` sits inside the
whitespace-skipping loop, where its condition can never hold (a byte cannot
be both whitespace and a reserved delimiter), so `parse_name` never fails:
on a name position starting with the reserved byte `|` it returns an empty
name and consumes nothing. -/
theorem parse_name_no_error :
    (∀ code, parse_name code ≠ none) ∧
    parse_name (bytes "|x") = some (bytes "|x", []) ∧
    parse_name (bytes " |x") = some (bytes "|x", []) := by
  refine ⟨?_, by decide, by decide⟩
  intro code
  rw [parse_name]
  have h := skip_ws_ne_none code
  cases hs : skip_ws code with
  | none => exact absurd hs h
  | some c2 => simp

set_option maxHeartbeats 4000000 in
theorem parse_term_mono : ∀ (fuel : Nat) (code : List Nat) (ctx : Ctx)
    (idx comment : Nat) (r : List Nat × Term × Nat),
    parse_term fuel code ctx idx comment = some r →
    parse_term (fuel + 1) code ctx idx comment = some r := by
  intro fuel
  induction fuel with
  | zero =>
    intro code ctx idx c r h
    rw [parse_term] at h
    exact absurd h (by simp)
  | succ f ih =>
    intro code ctx idx c r h
    match code with
    | [] =>
      rw [parse_term] at h
      exact absurd h (by simp)
    | b :: cs =>
      rw [parse_term] at h
      rw [parse_term]
      split_ifs at h ⊢
      all_goals try exact ih _ _ _ _ _ h
      all_goals try exact h
      · -- lambda
        rcases hn : parse_name cs with _ | ⟨code1, nam⟩
        · rw [hn] at h
          simp at h
        · rw [hn] at h
          dsimp only [] at h ⊢
          rcases hp : parse_term f code1 ((nam, none) :: ctx) idx c with
            _ | ⟨code2, bod, idx1⟩
          · rw [hp] at h
            simp at h
          · rw [hp] at h
            rw [ih _ _ _ _ _ hp]
            dsimp only [] at h ⊢
            exact h
      · -- application
        rcases hp : parse_term f cs ctx idx c with _ | ⟨code1, fn, idx1⟩
        · rw [hp] at h
          simp at h
        · rw [hp] at h
          rw [ih _ _ _ _ _ hp]
          dsimp only [] at h ⊢
          rcases hq : parse_term f code1 ctx idx1 c with
            _ | ⟨code2, arg, idx2⟩
          · rw [hq] at h
            simp at h
          · rw [hq] at h
            rw [ih _ _ _ _ _ hq]
            dsimp only [] at h ⊢
            exact h
      · -- pair
        rcases hp : parse_term f (b :: cs) ctx idx c with
          _ | ⟨code1, fst, idx1⟩
        · rw [hp] at h
          simp at h
        · rw [hp] at h
          rw [ih _ _ _ _ _ hp]
          dsimp only [] at h ⊢
          rcases hq : parse_term f code1 ctx idx1 c with
            _ | ⟨code2, snd, idx2⟩
          · rw [hq] at h
            simp at h
          · rw [hq] at h
            rw [ih _ _ _ _ _ hq]
            dsimp only [] at h ⊢
            exact h
      · -- duplication
        rcases hn : parse_name cs with _ | ⟨code1, fst⟩
        · rw [hn] at h
          simp at h
        · rw [hn] at h
          dsimp only [] at h ⊢
          rcases code1 with _ | ⟨d, code1t⟩
          · simp at h
          · dsimp only [] at h ⊢
            rcases hm : parse_name code1t with _ | ⟨code2, snd⟩
            · rw [hm] at h
              simp at h
            · rw [hm] at h
              dsimp only [] at h ⊢
              rcases hp : parse_term f code2
                  ((fst, none) :: (snd, none) :: ctx) idx c with
                _ | ⟨code3, val, idx1⟩
              · rw [hp] at h
                simp at h
              · rw [hp] at h
                rw [ih _ _ _ _ _ hp]
                dsimp only [] at h ⊢
                rcases hq : parse_term f code3
                    ((fst, none) :: (snd, none) :: ctx) idx1 c with
                  _ | ⟨code4, nxt, idx2⟩
                · rw [hq] at h
                  simp at h
                · rw [hq] at h
                  rw [ih _ _ _ _ _ hq]
                  dsimp only [] at h ⊢
                  exact h
      · -- definition
        rcases hn : parse_name cs with _ | ⟨code1, nam⟩
        · rw [hn] at h
          simp at h
        · rw [hn] at h
          dsimp only [] at h ⊢
          rcases hp : parse_term f code1 ctx idx c with
            _ | ⟨code2, val, idx1⟩
          · rw [hp] at h
            simp at h
          · rw [hp] at h
            rw [ih _ _ _ _ _ hp]
            dsimp only [] at h ⊢
            rcases hq : parse_term f code2 ((nam, some val) :: ctx) idx1 c with
              _ | ⟨code3, bod, idx2⟩
            · rw [hq] at h
              simp at h
            · rw [hq] at h
              rw [ih _ _ _ _ _ hq]
              dsimp only [] at h ⊢
              exact h

theorem parse_term_le (f g : Nat) (h : f ≤ g) (code : List Nat) (ctx : Ctx)
    (idx comment : Nat) (r : List Nat × Term × Nat)
    (hp : parse_term f code ctx idx comment = some r) :
    parse_term g code ctx idx comment = some r := by
  obtain ⟨k, rfl⟩ : ∃ k, g = f + k := ⟨g - f, by omega⟩
  clear h
  induction k with
  | zero => exact hp
  | succ n ihn => exact parse_term_mono _ _ _ _ _ _ ihn

theorem skip_ws_head (c : Nat) (l : List Nat) (hw : isWS c = false) :
    skip_ws (c :: l) = some (c :: l) := by
  rw [skip_ws, if_neg (by simp [hw])]

theorem take_name_stop (s : List Nat)
    (hs : s = [] ∨ isNameDelim (s.headD 0) = true) : take_name s = ([], s) := by
  rcases hs with rfl | hd
  · rfl
  · cases s with
    | nil => rfl
    | cons c cs =>
      simp only [List.headD_cons] at hd
      rw [take_name, if_pos hd]

theorem take_name_append (nam s : List Nat)
    (hn : ∀ c ∈ nam, isNameDelim c = false)
    (hs : s = [] ∨ isNameDelim (s.headD 0) = true) :
    take_name (nam ++ s) = (nam, s) := by
  induction nam with
  | nil => simpa using take_name_stop s hs
  | cons c cs ihc =>
    rw [List.cons_append, take_name, if_neg (by simp [hn c (by simp)])]
    have h2 := ihc (fun d hd => hn d (by simp [hd]))
    rw [h2]

theorem parse_name_print (nam s : List Nat) (hne : nam ≠ [])
    (hn : ∀ c ∈ nam, isNameDelim c = false)
    (hs : s = [] ∨ isNameDelim (s.headD 0) = true) :
    parse_name (nam ++ s) = some (s, nam) := by
  cases nam with
  | nil => exact absurd rfl hne
  | cons c cs =>
    have hcd := hn c (by simp)
    have hw : isWS c = false := by
      unfold isNameDelim at hcd
      simp at hcd
      exact hcd.1
    have ht := take_name_append (c :: cs) s hn hs
    rw [List.cons_append] at ht
    rw [parse_name, List.cons_append, skip_ws_head c _ hw]
    simp [ht]

theorem parse_name_ws (l : List Nat) : parse_name (32 :: l) = parse_name l := by
  rw [parse_name, parse_name, skip_ws, if_pos (show isWS 32 = true from rfl),
    if_neg (show ¬isReserved 32 = true by decide)]

set_option maxHeartbeats 2000000 in
theorem parse_print : ∀ (t : Term), printable t = true →
    ∀ (s : List Nat) (ctx : Ctx) (idx : Nat),
    (∀ e ∈ ctx, e.2 = (none : Option Term)) →
    (s = [] ∨ isNameDelim (s.headD 0) = true) →
    ∃ f, parse_term f (to_string t ++ s) ctx idx 0 = some (s, t, idx) := by
  intro t
  induction t with
  | Set =>
    intro _ s ctx idx hctx hs
    refine ⟨1, ?_⟩
    have hsh : to_string Term.Set ++ s = 42 :: s := rfl
    rw [hsh, parse_term]
    simp
  | Var nam =>
    intro hp s ctx idx hctx hs
    rcases nam with _ | ⟨c, rest⟩
    · simp [printable, good_name] at hp
    · rw [printable] at hp
      simp only [Bool.and_eq_true] at hp
      have hgn := hp.1
      have hnd : ∀ d ∈ c :: rest, isNameDelim d = false := by
        have h2 := hgn
        simp [good_name] at h2
        intro d hd
        rcases List.mem_cons.mp hd with rfl | hd2
        · exact h2.1
        · exact h2.2 d hd2
      have hc58 : c ≠ 58 ∧ c ≠ 40 := by
        have h2 := hp.2
        simp at h2
        exact h2
      have hc := hnd c (by simp)
      simp [isNameDelim, isWS, isReserved] at hc
      refine ⟨1, ?_⟩
      have hsh : to_string (Term.Var (c :: rest)) ++ s = c :: (rest ++ s) :=
        rfl
      rw [hsh, parse_term]
      rw [if_neg (by norm_num : ¬(0:Nat) > 0),
        if_neg (by omega : ¬(c = 32 ∨ c = 10 ∨ c = 13)),
        if_neg (by omega : ¬c = 40), if_neg (by omega : ¬c = 92),
        if_neg (by omega : ¬c = 47), if_neg (by omega : ¬c = 124),
        if_neg (by omega : ¬c = 61), if_neg (by omega : ¬c = 58),
        if_neg (by omega : ¬c = 42)]
      have hpn := parse_name_print (c :: rest) s (by simp) hnd hs
      rw [List.cons_append] at hpn
      rw [hpn]
      dsimp only []
      rcases hf : ctx.find? (fun e => e.1 == c :: rest) with _ | ⟨p, q⟩
      · rw [hf]
      · have hq : q = none := hctx (p, q) (List.mem_of_find?_eq_some hf)
        subst hq
        rw [hf]
  | Lam nam bod ihb =>
    intro hp s ctx idx hctx hs
    rw [printable] at hp
    simp only [Bool.and_eq_true] at hp
    have hgn := hp.1
    have hb := hp.2
    have hnam_ne : nam ≠ [] := by
      intro h
      rw [h] at hgn
      simp [good_name] at hgn
    have hnd : ∀ d ∈ nam, isNameDelim d = false := by
      have h2 := hgn
      simp [good_name] at h2
      exact h2.2
    obtain ⟨f0, hf0⟩ := ihb hb s ((nam, none) :: ctx) idx
      (by
        intro e he
        rcases List.mem_cons.mp he with rfl | h2
        · rfl
        · exact hctx e h2) hs
    refine ⟨f0 + 2, ?_⟩
    have hsh : to_string (Term.Lam nam bod) ++ s =
        92 :: (nam ++ (32 :: (to_string bod ++ s))) := by
      show (bytes "\\" ++ nam ++ bytes " " ++ to_string bod) ++ s = _
      have h1 : bytes "\\" = [92] := rfl
      have h2 : bytes " " = [32] := rfl
      rw [h1, h2]
      simp
    rw [hsh, parse_term]
    rw [if_neg (by norm_num : ¬(0:Nat) > 0),
      if_neg (by norm_num : ¬((92:Nat) = 32 ∨ (92:Nat) = 10 ∨ (92:Nat) = 13)),
      if_neg (by norm_num : ¬(92:Nat) = 40),
      if_pos (rfl : (92:Nat) = 92)]
    have hpn := parse_name_print nam (32 :: (to_string bod ++ s)) hnam_ne hnd
      (Or.inr (by simp [isNameDelim, isWS]))
    rw [hpn]
    dsimp only []
    rw [parse_term]
    rw [if_neg (by norm_num : ¬(0:Nat) > 0),
      if_pos (show (32:Nat) = 32 ∨ (32:Nat) = 10 ∨ (32:Nat) = 13 from
        Or.inl rfl)]
    rw [hf0]
  | App fn arg ihf iha =>
    intro hp s ctx idx hctx hs
    rw [printable] at hp
    simp only [Bool.and_eq_true] at hp
    obtain ⟨f1, hf1⟩ := ihf hp.1 (32 :: (to_string arg ++ s)) ctx idx hctx
      (Or.inr (by simp [isNameDelim, isWS]))
    obtain ⟨f2, hf2⟩ := iha hp.2 s ctx idx hctx hs
    refine ⟨max f1 f2 + 2, ?_⟩
    have hsh : to_string (Term.App fn arg) ++ s =
        47 :: (to_string fn ++ (32 :: (to_string arg ++ s))) := by
      show (bytes "/" ++ to_string fn ++ bytes " " ++ to_string arg) ++ s = _
      have h1 : bytes "/" = [47] := rfl
      have h2 : bytes " " = [32] := rfl
      rw [h1, h2]
      simp
    rw [hsh, parse_term]
    rw [if_neg (by norm_num : ¬(0:Nat) > 0),
      if_neg (by norm_num : ¬((47:Nat) = 32 ∨ (47:Nat) = 10 ∨ (47:Nat) = 13)),
      if_neg (by norm_num : ¬(47:Nat) = 40),
      if_neg (by norm_num : ¬(47:Nat) = 92),
      if_pos (rfl : (47:Nat) = 47)]
    rw [parse_term_le f1 (max f1 f2 + 1) (by omega) _ _ _ _ _ hf1]
    dsimp only []
    rw [parse_term]
    rw [if_neg (by norm_num : ¬(0:Nat) > 0),
      if_pos (show (32:Nat) = 32 ∨ (32:Nat) = 10 ∨ (32:Nat) = 13 from
        Or.inl rfl)]
    rw [parse_term_le f2 (max f1 f2) (by omega) _ _ _ _ _ hf2]
  | Par fst snd ihf ihs =>
    intro hp
    rw [printable] at hp
    simp at hp
  | Dup fst snd val nxt ihv ihn2 =>
    intro hp s ctx idx hctx hs
    rw [printable] at hp
    simp only [Bool.and_eq_true] at hp
    have hgf := hp.1.1.1
    have hgs := hp.1.1.2
    have hpv := hp.1.2
    have hpn2 := hp.2
    have hfne : fst ≠ [] := by
      intro h
      rw [h] at hgf
      simp [good_name] at hgf
    have hfnd : ∀ d ∈ fst, isNameDelim d = false := by
      have h2 := hgf
      simp [good_name] at h2
      exact h2.2
    have hsne : snd ≠ [] := by
      intro h
      rw [h] at hgs
      simp [good_name] at hgs
    have hsnd : ∀ d ∈ snd, isNameDelim d = false := by
      have h2 := hgs
      simp [good_name] at h2
      exact h2.2
    have hctx2 : ∀ e ∈ (fst, (none : Option Term)) ::
        (snd, (none : Option Term)) :: ctx, e.2 = (none : Option Term) := by
      intro e he
      rcases List.mem_cons.mp he with rfl | h2
      · rfl
      · rcases List.mem_cons.mp h2 with rfl | h3
        · rfl
        · exact hctx e h3
    obtain ⟨f1, hf1⟩ := ihv hpv (10 :: (to_string nxt ++ s))
      ((fst, none) :: (snd, none) :: ctx) idx hctx2
      (Or.inr (by simp [isNameDelim, isWS]))
    obtain ⟨f2, hf2⟩ := ihn2 hpn2 s ((fst, none) :: (snd, none) :: ctx) idx
      hctx2 hs
    refine ⟨max f1 f2 + 2, ?_⟩
    have hsh : to_string (Term.Dup fst snd val nxt) ++ s =
        61 :: (32 :: (fst ++ (32 :: (snd ++ (32 :: (to_string val ++
          (10 :: (to_string nxt ++ s)))))))) := by
      show (bytes "=" ++ bytes " " ++ fst ++ bytes " " ++ snd ++ bytes " " ++
        to_string val ++ bytes "\n" ++ to_string nxt) ++ s = _
      have h1 : bytes "=" = [61] := rfl
      have h2 : bytes " " = [32] := rfl
      have h3 : bytes "\n" = [10] := rfl
      rw [h1, h2, h3]
      simp
    rw [hsh, parse_term]
    rw [if_neg (by norm_num : ¬(0:Nat) > 0),
      if_neg (by norm_num : ¬((61:Nat) = 32 ∨ (61:Nat) = 10 ∨ (61:Nat) = 13)),
      if_neg (by norm_num : ¬(61:Nat) = 40),
      if_neg (by norm_num : ¬(61:Nat) = 92),
      if_neg (by norm_num : ¬(61:Nat) = 47),
      if_neg (by norm_num : ¬(61:Nat) = 124),
      if_pos (rfl : (61:Nat) = 61)]
    rw [parse_name_ws]
    have hn1 := parse_name_print fst
      (32 :: (snd ++ (32 :: (to_string val ++ (10 :: (to_string nxt ++ s))))))
      hfne hfnd (Or.inr (by simp [isNameDelim, isWS]))
    rw [hn1]
    dsimp only []
    have hn2 := parse_name_print snd
      (32 :: (to_string val ++ (10 :: (to_string nxt ++ s))))
      hsne hsnd (Or.inr (by simp [isNameDelim, isWS]))
    rw [hn2]
    dsimp only []
    rw [parse_term]
    rw [if_neg (by norm_num : ¬(0:Nat) > 0),
      if_pos (show (32:Nat) = 32 ∨ (32:Nat) = 10 ∨ (32:Nat) = 13 from
        Or.inl rfl)]
    rw [parse_term_le f1 (max f1 f2) (by omega) _ _ _ _ _ hf1]
    dsimp only []
    rw [parse_term]
    rw [if_neg (by norm_num : ¬(0:Nat) > 0),
      if_pos (show (10:Nat) = 32 ∨ (10:Nat) = 10 ∨ (10:Nat) = 13 from
        Or.inr (Or.inl rfl))]
    rw [parse_term_le f2 (max f1 f2) (by omega) _ _ _ _ _ hf2]

theorem from_string_mono (f : Nat) (code : List Nat) (t : Term)
    (h : from_string f code = some t) : from_string (f + 1) code = some t := by
  rw [from_string] at h ⊢
  rcases hp : parse_term f code [] 0 0 with _ | r
  · rw [hp] at h
    simp at h
  · rw [hp] at h
    rw [parse_term_mono _ _ _ _ _ _ hp]
    exact h

/-- Claim C4 (amended): printing and reparsing is the exact identity (hence
an α-equivalence) on every printable term: no `Par`, every name nonempty and
free of the reader delimiter bytes, and no variable name starting with `:` or
`(`.  The original universally quantified claim fails on parser-producible
terms with namespaced names (see the counterexample). -/
theorem round_trip (t : Term) (h : printable t = true) :
    ∃ fuel, from_string fuel (to_string t) = some t := by
  obtain ⟨f, hf⟩ := parse_print t h [] [] 0 (by simp) (Or.inl rfl)
  refine ⟨f, ?_⟩
  rw [List.append_nil] at hf
  rw [from_string, hf]
  rfl

/-- Witness for C4 at the printable term `/\\x x *`. -/
theorem round_trip_witness :
    printable tBeta = true ∧
    ∃ fuel, from_string fuel (to_string tBeta) = some tBeta :=
  ⟨by decide, round_trip tBeta (by decide)⟩

/-- Claim C4, counterexample: the reader produces `tRound` from `:i \\x x i`
(a parser-producible term), but reparsing its printed form yields
`\\i ''` — `parse_name` stops at the `#` byte — which is not α-equivalent to
`tRound`, at every fuel. -/
theorem round_trip_cex :
    from_string 20 inRound = some tRound ∧
    ∀ fuel u, from_string fuel (to_string tRound) = some u →
      ¬ alpha_eq u tRound := by
  refine ⟨by decide, ?_⟩
  have hstable : ∀ k, from_string (k + 2) (to_string tRound) =
      some (Term.Lam (bytes "i") (Term.Var [])) := by
    intro k
    induction k with
    | zero => decide
    | succ n ihn => exact from_string_mono _ _ _ ihn
  intro fuel u hu
  rcases Nat.lt_or_ge fuel 2 with hf | hf
  · interval_cases fuel
    · rw [show from_string 0 (to_string tRound) = none from rfl] at hu
      simp at hu
    · rw [show from_string 1 (to_string tRound) = none by decide] at hu
      simp at hu
  · obtain ⟨k, rfl⟩ : ∃ k, fuel = k + 2 := ⟨fuel - 2, by omega⟩
    rw [hstable k] at hu
    simp only [Option.some.injEq] at hu
    subst hu
    decide

theorem reduce_go_stats : ∀ (fuel : Nat) (net : Net) (sch ex : List Nat)
    (nx : Nat) (st : Stats) (n : Net) (s : Stats),
    reduce_go fuel net sch ex nx st = RRes.ok n s →
    s.annis = st.annis ∧ s.dupls = st.dupls ∧ s.betas = st.betas := by
  intro fuel
  induction fuel with
  | zero =>
    intro net sch ex nx st n s h
    exact absurd h (by simp [reduce_go])
  | succ f ih =>
    intro net sch ex nx st n s h
    rw [reduce_go] at h
    split at h
    · dsimp only at h
      iterate 6 (all_goals (try (split at h)))
      all_goals
        first
          | exact (RRes.noConfusion h)
          | (rcases ih _ _ _ _ _ _ _ h with ⟨h1, h2, h3⟩; exact ⟨h1, h2, h3⟩)
    · cases h
      exact ⟨rfl, rfl, rfl⟩

/-- Claim C2 (amended): the reducer increments only `loops` and `rules`;
`annis`, `dupls` and `betas` are never incremented, so whenever `reduce`
completes they are 0 (and `rules = annis + dupls` fails as soon as one
rewrite happened). -/
theorem reduce_stats_zero (fuel : Nat) (net : Net) (n : Net) (s : Stats)
    (h : reduce fuel net = RRes.ok n s) :
    s.annis = 0 ∧ s.dupls = 0 ∧ s.betas = 0 :=
  reduce_go_stats fuel net [] [] (net.nodes.getD 0 0) ⟨0, 0, 0, 0, 0⟩ n s h

/-- Claim C2, counterexample: on the net of `/\\x x *` one rewrite happens,
so `rules = 1` while `annis + dupls = 0`. -/
theorem reduce_stats_cex :
    to_net tBeta = Except.ok netBeta ∧
    reduce 100 netBeta =
      RRes.ok ⟨[12, 2, 1, 4, 8, 12, 0, 1, 4, 10, 12, 1, 0, 14, 13, 0],
        [2, 1]⟩ ⟨5, 1, 0, 0, 0⟩ ∧
    (⟨5, 1, 0, 0, 0⟩ : Stats).rules ≠
      (⟨5, 1, 0, 0, 0⟩ : Stats).annis + (⟨5, 1, 0, 0, 0⟩ : Stats).dupls :=
  ⟨rfl, rfl, by decide⟩

/-- Witness for C2's amended theorem at a concrete completed run. -/
theorem reduce_stats_zero_witness :
    (⟨5, 1, 0, 0, 0⟩ : Stats).annis = 0 ∧
    (⟨5, 1, 0, 0, 0⟩ : Stats).dupls = 0 ∧
    (⟨5, 1, 0, 0, 0⟩ : Stats).betas = 0 :=
  reduce_stats_zero 100 netBeta
    ⟨[12, 2, 1, 4, 8, 12, 0, 1, 4, 10, 12, 1, 0, 14, 13, 0], [2, 1]⟩
    ⟨5, 1, 0, 0, 0⟩ rfl

theorem reduce_cycle_go (f : Nat) : ∀ (ex : List Nat) (st : Stats),
    reduce_go f netCycle [] ex 9 st = RRes.out ∧
    reduce_go f netCycle [] ex 5 st = RRes.out := by
  induction f with
  | zero => intro ex st; exact ⟨rfl, rfl⟩
  | succ g ih =>
    intro ex st
    exact ⟨(ih (1 :: ex) { st with loops := st.loops + 1 }).2,
           (ih (1 :: ex) { st with loops := st.loops + 1 }).1⟩

/-- Claim C5, counterexample: `to_net` succeeds on `/a \\a *` (the argument
variable is linked to the binder inside the argument), but the reducer then
walks the cycle between the application's port 1 and the lambda's port 1
forever: it never completes, at any fuel. -/
theorem reduce_not_complete_cex :
    to_net tCycle = Except.ok netCycle ∧ spins netCycle := by
  refine ⟨rfl, fun fuel => ?_⟩
  cases fuel with
  | zero => rfl
  | succ g => exact (reduce_cycle_go g [2] ⟨1, 0, 0, 0, 0⟩).1

/-- Claim C5 (amended): `reduce` is not guaranteed to complete on a
successfully encoded net — on `netCycle` it runs out of any fuel, revisiting
the same two auxiliary ports without ever rewriting; in particular no
`unwrap` fails there (the run never returns `trap`). -/
theorem reduce_may_not_complete (fuel : Nat) :
    reduce fuel netCycle = RRes.out ∧ reduce fuel netCycle ≠ RRes.trap := by
  have h : reduce fuel netCycle = RRes.out := by
    cases fuel with
    | zero => rfl
    | succ g => exact (reduce_cycle_go g [2] ⟨1, 0, 0, 0, 0⟩).1
  exact ⟨h, by rw [h]; exact fun hc => RRes.noConfusion hc⟩

theorem connect_length (net : Net) (a b : Nat) :
    (connect net a b).nodes.length = net.nodes.length := by
  simp [connect]

theorem connect_reuse (net : Net) (a b : Nat) :
    (connect net a b).reuse = net.reuse := rfl

theorem filter_not_mem_cons (s : Finset Nat) (r : Nat) (l : List Nat) :
    s.filter (fun n => n ∉ r :: l) = (s.filter (fun n => n ∉ l)).erase r := by
  ext n
  simp [List.mem_cons, Finset.mem_erase, Finset.mem_filter]
  tauto

theorem card_range_filter_not_mem_nil (nn : Nat) :
    ((Finset.range nn).filter (fun n => n ∉ ([] : List Nat))).card = nn := by
  simp

theorem addr_link (n i : Nat) (hi : i < 4) : addr (link n i) = n := by
  unfold addr link
  omega

theorem port_link (n i : Nat) (hi : i < 4) : port (link n i) = i := by
  unfold port link
  omega

theorem link_eq_iff (m n i j : Nat) (hi : i < 4) (hj : j < 4) :
    link m i = link n j ↔ m = n ∧ i = j := by
  unfold link
  omega

theorem link_lt (n i L : Nat) (hi : i < 4) (h : 4 * n + 3 < L) :
    link n i < L := by
  unfold link
  omega

theorem enter_connect (net : Net) (a b q : Nat)
    (ha : a < net.nodes.length) (hb : b < net.nodes.length) :
    enter (connect net a b) q =
      if q = b then a else if q = a then b else enter net q := by
  unfold enter connect
  dsimp only
  rw [List.getD_eq_getElem?_getD, List.getD_eq_getElem?_getD]
  by_cases hqb : q = b
  · subst hqb
    rw [List.getElem?_set_self (by simpa using hb)]
    simp
  · rw [List.getElem?_set_ne (fun he => hqb he.symm)]
    by_cases hqa : q = a
    · subst hqa
      rw [List.getElem?_set_self ha]
      simp [hqb]
    · rw [List.getElem?_set_ne (fun he => hqa he.symm)]
      rw [if_neg hqb, if_neg hqa]

theorem getD_set_ne (l : List Nat) (i j v : Nat) (h : i ≠ j) :
    (l.set i v).getD j 0 = l.getD j 0 := by
  rw [List.getD_eq_getElem?_getD, List.getD_eq_getElem?_getD,
    List.getElem?_set_ne h]

theorem getD_append_left (l l2 : List Nat) (q : Nat) (h : q < l.length) :
    (l ++ l2).getD q 0 = l.getD q 0 := by
  rw [List.getD_eq_getElem?_getD, List.getD_eq_getElem?_getD,
    List.getElem?_append]
  rw [if_pos h]

theorem new_node_node_spec (net : Net) (k : Nat)
    (hlen : net.nodes.length % 4 = 0) :
    (net.reuse = (new_node net k).2 :: (new_node net k).1.reuse) ∨
    (net.reuse = [] ∧ 4 * (new_node net k).2 = net.nodes.length) := by
  rcases hr : net.reuse with _ | ⟨r, rest⟩
  · right
    refine ⟨rfl, ?_⟩
    simp [new_node, hr]
    omega
  · left
    simp [new_node, hr]

theorem new_node_len_pop (net : Net) (k : Nat) (h : net.reuse ≠ []) :
    (new_node net k).1.nodes.length = net.nodes.length := by
  rcases hr : net.reuse with _ | ⟨r, rest⟩
  · exact absurd hr h
  · simp [new_node, hr]

theorem new_node_len_fresh (net : Net) (k : Nat) (h : net.reuse = []) :
    (new_node net k).1.nodes.length = net.nodes.length + 4 := by
  simp [new_node, h]

theorem new_node_len_ge (net : Net) (k : Nat) :
    net.nodes.length ≤ (new_node net k).1.nodes.length := by
  rcases hr : net.reuse with _ | ⟨r, rest⟩
  · rw [new_node_len_fresh net k hr]
    omega
  · rw [new_node_len_pop net k (by rw [hr]; simp)]

theorem new_node_len_mod (net : Net) (k : Nat)
    (hlen : net.nodes.length % 4 = 0) :
    (new_node net k).1.nodes.length % 4 = 0 := by
  rcases hr : net.reuse with _ | ⟨r, rest⟩
  · rw [new_node_len_fresh net k hr]
    omega
  · rw [new_node_len_pop net k (by rw [hr]; simp)]
    exact hlen

theorem getD_set_self (l : List Nat) (i v : Nat) (h : i < l.length) :
    (l.set i v).getD i 0 = v := by
  rw [List.getD_eq_getElem?_getD, List.getElem?_set_self h]
  rfl

theorem link_ne (m n i j : Nat) (hi : i < 4) (hj : j < 4)
    (h : m ≠ n ∨ i ≠ j) : link m i ≠ link n j := by
  unfold link
  omega

theorem new_node_enter_self (net : Net) (k i : Nat) (hi : i < 3)
    (hlen : net.nodes.length % 4 = 0)
    (hbr : ∀ r ∈ net.reuse, 4 * r + 3 < net.nodes.length) :
    enter (new_node net k).1 (link (new_node net k).2 i) =
      link (new_node net k).2 i := by
  have hne3 : link (new_node net k).2 3 ≠ link (new_node net k).2 i :=
    link_ne _ _ _ _ (by norm_num) (by omega) (Or.inr (by omega))
  rcases hr : net.reuse with _ | ⟨r, rest⟩
  · have hnd : (new_node net k).2 = net.nodes.length / 4 := by
      simp [new_node, hr]
    have hb : (new_node net k).1.nodes =
        (((((net.nodes ++ List.replicate 4 0).set
          (link (net.nodes.length / 4) 0) (link (net.nodes.length / 4) 0)).set
          (link (net.nodes.length / 4) 1) (link (net.nodes.length / 4) 1)).set
          (link (net.nodes.length / 4) 2) (link (net.nodes.length / 4) 2)).set
          (link (net.nodes.length / 4) 3) k) := by
      simp [new_node, hr]
    have hlt : ∀ j, j < 4 → link (net.nodes.length / 4) j <
        (net.nodes ++ List.replicate 4 0).length := by
      intro j hj
      unfold link
      simp
      omega
    unfold enter
    rw [hb, hnd]
    interval_cases i
    · rw [getD_set_ne _ _ _ _ (link_ne _ _ _ _ (by norm_num) (by norm_num)
        (Or.inr (by norm_num)))]
      rw [getD_set_ne _ _ _ _ (link_ne _ _ _ _ (by norm_num) (by norm_num)
        (Or.inr (by norm_num)))]
      rw [getD_set_ne _ _ _ _ (link_ne _ _ _ _ (by norm_num) (by norm_num)
        (Or.inr (by norm_num)))]
      exact getD_set_self _ _ _ (by simpa using hlt 0 (by norm_num))
    · rw [getD_set_ne _ _ _ _ (link_ne _ _ _ _ (by norm_num) (by norm_num)
        (Or.inr (by norm_num)))]
      rw [getD_set_ne _ _ _ _ (link_ne _ _ _ _ (by norm_num) (by norm_num)
        (Or.inr (by norm_num)))]
      exact getD_set_self _ _ _ (by simpa using hlt 1 (by norm_num))
    · rw [getD_set_ne _ _ _ _ (link_ne _ _ _ _ (by norm_num) (by norm_num)
        (Or.inr (by norm_num)))]
      exact getD_set_self _ _ _ (by simpa using hlt 2 (by norm_num))
  · have hnd : (new_node net k).2 = r := by simp [new_node, hr]
    have hb : (new_node net k).1.nodes =
        ((((net.nodes.set (link r 0) (link r 0)).set
          (link r 1) (link r 1)).set
          (link r 2) (link r 2)).set
          (link r 3) k) := by
      simp [new_node, hr]
    have hrl : 4 * r + 3 < net.nodes.length := hbr r (by rw [hr]; simp)
    have hlt : ∀ j, j < 4 → link r j < net.nodes.length := by
      intro j hj
      unfold link
      omega
    unfold enter
    rw [hb, hnd]
    interval_cases i
    · rw [getD_set_ne _ _ _ _ (link_ne _ _ _ _ (by norm_num) (by norm_num)
        (Or.inr (by norm_num)))]
      rw [getD_set_ne _ _ _ _ (link_ne _ _ _ _ (by norm_num) (by norm_num)
        (Or.inr (by norm_num)))]
      rw [getD_set_ne _ _ _ _ (link_ne _ _ _ _ (by norm_num) (by norm_num)
        (Or.inr (by norm_num)))]
      exact getD_set_self _ _ _ (by simpa using hlt 0 (by norm_num))
    · rw [getD_set_ne _ _ _ _ (link_ne _ _ _ _ (by norm_num) (by norm_num)
        (Or.inr (by norm_num)))]
      rw [getD_set_ne _ _ _ _ (link_ne _ _ _ _ (by norm_num) (by norm_num)
        (Or.inr (by norm_num)))]
      exact getD_set_self _ _ _ (by simpa using hlt 1 (by norm_num))
    · rw [getD_set_ne _ _ _ _ (link_ne _ _ _ _ (by norm_num) (by norm_num)
        (Or.inr (by norm_num)))]
      exact getD_set_self _ _ _ (by simpa using hlt 2 (by norm_num))

theorem new_node_enter_other (net : Net) (k q : Nat)
    (hlen : net.nodes.length % 4 = 0)
    (hq : q < net.nodes.length) (ha : addr q ≠ (new_node net k).2) :
    enter (new_node net k).1 q = enter net q := by
  have hqi : ∀ i, i < 4 → q ≠ link (new_node net k).2 i := by
    intro i hi he
    apply ha
    rw [he, addr_link _ _ hi]
  rcases hr : net.reuse with _ | ⟨r, rest⟩
  · have hnd : (new_node net k).2 = net.nodes.length / 4 := by
      simp [new_node, hr]
    unfold enter
    show (new_node net k).1.nodes.getD q 0 = net.nodes.getD q 0
    have hb : (new_node net k).1.nodes =
        (((((net.nodes ++ List.replicate 4 0).set
          (link (net.nodes.length / 4) 0) (link (net.nodes.length / 4) 0)).set
          (link (net.nodes.length / 4) 1) (link (net.nodes.length / 4) 1)).set
          (link (net.nodes.length / 4) 2) (link (net.nodes.length / 4) 2)).set
          (link (net.nodes.length / 4) 3) k) := by
      simp [new_node, hr]
    rw [hb]
    rw [getD_set_ne _ _ _ _ (fun he => hqi 3 (by norm_num) (by rw [← he, hnd]))]
    rw [getD_set_ne _ _ _ _ (fun he => hqi 2 (by norm_num) (by rw [← he, hnd]))]
    rw [getD_set_ne _ _ _ _ (fun he => hqi 1 (by norm_num) (by rw [← he, hnd]))]
    rw [getD_set_ne _ _ _ _ (fun he => hqi 0 (by norm_num) (by rw [← he, hnd]))]
    exact getD_append_left _ _ _ hq
  · have hnd : (new_node net k).2 = r := by simp [new_node, hr]
    unfold enter
    have hb : (new_node net k).1.nodes =
        ((((net.nodes.set (link r 0) (link r 0)).set
          (link r 1) (link r 1)).set
          (link r 2) (link r 2)).set
          (link r 3) k) := by
      simp [new_node, hr]
    rw [hb]
    rw [getD_set_ne _ _ _ _ (fun he => hqi 3 (by norm_num) (by rw [← he, hnd]))]
    rw [getD_set_ne _ _ _ _ (fun he => hqi 2 (by norm_num) (by rw [← he, hnd]))]
    rw [getD_set_ne _ _ _ _ (fun he => hqi 1 (by norm_num) (by rw [← he, hnd]))]
    rw [getD_set_ne _ _ _ _ (fun he => hqi 0 (by norm_num) (by rw [← he, hnd]))]

/-- Claim C3, counterexample: `to_net` succeeds on `= a b * a` but produces a
net violating reciprocity at the initial state: the final `connect(0, main)`
with `main = 0` overwrites the root cell that the duplication's port 1 was
linked to. -/
theorem to_net_not_reciprocal_cex :
    to_net tDupVar = Except.ok netDupVar ∧ ¬ Reciprocal netDupVar :=
  ⟨rfl, by decide⟩

theorem new_node_reuse (net : Net) (k : Nat) :
    (new_node net k).1.reuse = net.reuse.tail := by
  rcases hr : net.reuse with _ | ⟨r, rest⟩ <;> simp [new_node, hr]

theorem new_node_length (net : Net) (k : Nat) :
    (new_node net k).1.nodes.length =
      (if net.reuse = [] then net.nodes.length + 4 else net.nodes.length) := by
  rcases hr : net.reuse with _ | ⟨r, rest⟩ <;> simp [new_node, hr, link]

theorem rewrite_anni_preserves (net : Net) (x y : Nat)
    (hcl : ∀ p < net.nodes.length, port p ≠ 3 → addr p ∉ net.reuse →
      (enter net p < net.nodes.length ∧ port (enter net p) ≠ 3 ∧
        addr (enter net p) ∉ net.reuse ∧
        enter net (enter net p) = p ∧ enter net p ≠ p))
    (hx3 : 4 * x + 3 < net.nodes.length) (hxr : x ∉ net.reuse)
    (hy3 : 4 * y + 3 < net.nodes.length) (hyr : y ∉ net.reuse)
    (hxy : x ≠ y)
    (hk : kind net x = kind net y) :
    Reciprocal (rewrite net x y) := by
  obtain ⟨hp0l, hp0p, hp0r, hp0e, hp0ne⟩ :=
    hcl (link x 1) (link_lt _ _ _ (by norm_num) hx3)
      (by rw [port_link _ _ (by norm_num)]; norm_num)
      (by rw [addr_link _ _ (by norm_num)]; exact hxr)
  obtain ⟨hp1l, hp1p, hp1r, hp1e, hp1ne⟩ :=
    hcl (link y 1) (link_lt _ _ _ (by norm_num) hy3)
      (by rw [port_link _ _ (by norm_num)]; norm_num)
      (by rw [addr_link _ _ (by norm_num)]; exact hyr)
  obtain ⟨hx2l, hx2p, hx2r, hx2e, hx2ne⟩ :=
    hcl (link x 2) (link_lt _ _ _ (by norm_num) hx3)
      (by rw [port_link _ _ (by norm_num)]; norm_num)
      (by rw [addr_link _ _ (by norm_num)]; exact hxr)
  obtain ⟨hy2l, hy2p, hy2r, hy2e, hy2ne⟩ :=
    hcl (link y 2) (link_lt _ _ _ (by norm_num) hy3)
      (by rw [port_link _ _ (by norm_num)]; norm_num)
      (by rw [addr_link _ _ (by norm_num)]; exact hyr)
  set p0 := enter net (link x 1) with hp0def
  set p1 := enter net (link y 1) with hp1def
  set net1 := connect net p0 p1 with hnet1def
  set q0 := enter net1 (link x 2) with hq0def
  set q1 := enter net1 (link y 2) with hq1def
  set net2 := connect net1 q0 q1 with hnet2def
  have hrw : rewrite net x y = ⟨net2.nodes, y :: x :: net2.reuse⟩ := by
    unfold SIC.rewrite
    rw [if_pos hk]
  have hlen1 : net1.nodes.length = net.nodes.length := connect_length _ _ _
  have hE1 : ∀ q, enter net1 q =
      if q = p1 then p0 else if q = p0 then p1 else enter net q :=
    fun q => enter_connect net p0 p1 q hp0l hp1l
  have hp0p1 : p0 ≠ p1 := by
    intro he
    have h2 : link x 1 = link y 1 := by rw [← hp0e, ← hp1e, he]
    exact hxy ((link_eq_iff _ _ _ _ (by norm_num) (by norm_num)).mp h2).1
  have hq0v : q0 = p0 ∨ q0 = p1 ∨ q0 = enter net (link x 2) := by
    rw [hq0def, hE1]
    split_ifs with h1 h2
    · exact Or.inl rfl
    · exact Or.inr (Or.inl rfl)
    · exact Or.inr (Or.inr rfl)
  have hq1v : q1 = p0 ∨ q1 = p1 ∨ q1 = enter net (link y 2) := by
    rw [hq1def, hE1]
    split_ifs with h1 h2
    · exact Or.inl rfl
    · exact Or.inr (Or.inl rfl)
    · exact Or.inr (Or.inr rfl)
  have hq0l : q0 < net1.nodes.length := by
    rw [hlen1]
    rcases hq0v with h | h | h <;> rw [h]
    · exact hp0l
    · exact hp1l
    · exact hx2l
  have hq1l : q1 < net1.nodes.length := by
    rw [hlen1]
    rcases hq1v with h | h | h <;> rw [h]
    · exact hp0l
    · exact hp1l
    · exact hy2l
  have hE2 : ∀ q, enter net2 q =
      if q = q1 then q0 else if q = q0 then q1 else enter net1 q :=
    fun q => enter_connect net1 q0 q1 q hq0l hq1l
  have hlen2 : net2.nodes.length = net.nodes.length := by
    rw [hnet2def, connect_length, hlen1]
  -- the exact three shapes of q0 and q1, with their side conditions
  have hq0s : (link x 2 = p1 ∧ q0 = p0) ∨
      (link x 2 ≠ p1 ∧ link x 2 = p0 ∧ q0 = p1) ∨
      (link x 2 ≠ p1 ∧ link x 2 ≠ p0 ∧ q0 = enter net (link x 2)) := by
    rw [hq0def, hE1]
    by_cases h1 : link x 2 = p1
    · left
      exact ⟨h1, by rw [if_pos h1]⟩
    · by_cases h2 : link x 2 = p0
      · right; left
        exact ⟨h1, h2, by rw [if_neg h1, if_pos h2]⟩
      · right; right
        exact ⟨h1, h2, by rw [if_neg h1, if_neg h2]⟩
  have hq1s : (link y 2 = p1 ∧ q1 = p0) ∨
      (link y 2 ≠ p1 ∧ link y 2 = p0 ∧ q1 = p1) ∨
      (link y 2 ≠ p1 ∧ link y 2 ≠ p0 ∧ q1 = enter net (link y 2)) := by
    rw [hq1def, hE1]
    by_cases h1 : link y 2 = p1
    · left
      exact ⟨h1, by rw [if_pos h1]⟩
    · by_cases h2 : link y 2 = p0
      · right; left
        exact ⟨h1, h2, by rw [if_neg h1, if_pos h2]⟩
      · right; right
        exact ⟨h1, h2, by rw [if_neg h1, if_neg h2]⟩
  rw [hrw]
  intro p hpl hpp hpr
  have hent : ∀ q, enter (⟨net2.nodes, y :: x :: net2.reuse⟩ : Net) q =
      enter net2 q := fun q => rfl
  rw [hent, hent]
  simp only [List.mem_cons] at hpr
  push_neg at hpr
  obtain ⟨hpy, hpx, hpre⟩ := hpr
  have hplen : p < net.nodes.length := by
    simpa [hlen2] using hpl
  obtain ⟨hpEl, hpEp, hpEr, hpEe, hpEne⟩ := hcl p hplen hpp hpre
  -- p is not a port of x or y
  have hnotx : ∀ i, i < 4 → p ≠ link x i := by
    intro i hi he
    exact hpx (by rw [he, addr_link _ _ hi])
  have hnoty : ∀ i, i < 4 → p ≠ link y i := by
    intro i hi he
    exact hpy (by rw [he, addr_link _ _ hi])
  by_cases hc1 : p = q1
  · rw [hc1, hE2 q1, if_pos rfl, hE2 q0]
    by_cases hqq : q0 = q1
    · rw [if_pos hqq]
      exact hqq
    · rw [if_neg hqq, if_pos rfl]
  by_cases hc2 : p = q0
  · rw [hc2, hE2 q0, if_neg (hc2 ▸ hc1), if_pos rfl, hE2 q1, if_pos rfl]
  by_cases hc3 : p = p1
  · rw [hc3, hE2 p1, if_neg (hc3 ▸ hc1), if_neg (hc3 ▸ hc2), hE1 p1,
      if_pos rfl]
    have hd1 : p0 ≠ q1 := by
      intro he
      rcases hq1s with ⟨h1, h2⟩ | ⟨h1, h2, h3⟩ | ⟨h1, h2, h3⟩
      · exact hnoty 2 (by norm_num) (by rw [hc3, ← h1])
      · rw [h3] at he
        exact hp0p1 he
      · rw [h3] at he
        have h4 := congrArg (enter net) he
        rw [hp0e, hy2e] at h4
        exact hxy ((link_eq_iff _ _ _ _ (by norm_num) (by norm_num)).mp h4).1
    have hd2 : p0 ≠ q0 := by
      intro he
      rcases hq0s with ⟨h1, h2⟩ | ⟨h1, h2, h3⟩ | ⟨h1, h2, h3⟩
      · exact hnotx 2 (by norm_num) (by rw [hc3, ← h1])
      · rw [h3] at he
        exact hp0p1 he
      · rw [h3] at he
        have h4 := congrArg (enter net) he
        rw [hp0e, hx2e] at h4
        exact absurd ((link_eq_iff _ _ _ _ (by norm_num)
          (by norm_num)).mp h4).2 (by norm_num)
    rw [hE2 p0, if_neg hd1, if_neg hd2, hE1 p0, if_neg hp0p1, if_pos rfl]
  by_cases hc4 : p = p0
  · rw [hc4, hE2 p0, if_neg (hc4 ▸ hc1), if_neg (hc4 ▸ hc2), hE1 p0,
      if_neg hp0p1, if_pos rfl]
    have hd1 : p1 ≠ q1 := by
      intro he
      rcases hq1s with ⟨h1, h2⟩ | ⟨h1, h2, h3⟩ | ⟨h1, h2, h3⟩
      · rw [h2] at he
        exact hp0p1 he.symm
      · exact hnoty 2 (by norm_num) (by rw [hc4, ← h2])
      · rw [h3] at he
        have h4 := congrArg (enter net) he
        rw [hp1e, hy2e] at h4
        exact absurd ((link_eq_iff _ _ _ _ (by norm_num)
          (by norm_num)).mp h4).2 (by norm_num)
    have hd2 : p1 ≠ q0 := by
      intro he
      rcases hq0s with ⟨h1, h2⟩ | ⟨h1, h2, h3⟩ | ⟨h1, h2, h3⟩
      · rw [h2] at he
        exact hp0p1 he.symm
      · exact hnotx 2 (by norm_num) (by rw [hc4, ← h2])
      · rw [h3] at he
        have h4 := congrArg (enter net) he
        rw [hp1e, hx2e] at h4
        exact hxy ((link_eq_iff _ _ _ _ (by norm_num)
          (by norm_num)).mp h4).1.symm
    rw [hE2 p1, if_neg hd1, if_neg hd2, hE1 p1, if_pos rfl]
  · -- p is none of q1, q0, p1, p0
    rw [hE2 p, if_neg hc1, if_neg hc2, hE1 p, if_neg hc3, if_neg hc4]
    have hEp0 : enter net p ≠ p0 := by
      intro he
      have h2 := congrArg (enter net) he
      rw [hpEe, hp0e] at h2
      exact hnotx 1 (by norm_num) h2
    have hEp1 : enter net p ≠ p1 := by
      intro he
      have h2 := congrArg (enter net) he
      rw [hpEe, hp1e] at h2
      exact hnoty 1 (by norm_num) h2
    have hEq1 : enter net p ≠ q1 := by
      intro he
      rcases hq1s with ⟨h1, h2⟩ | ⟨h1, h2, h3⟩ | ⟨h1, h2, h3⟩
      · rw [h2] at he
        exact hEp0 he
      · rw [h3] at he
        exact hEp1 he
      · rw [h3] at he
        have h4 := congrArg (enter net) he
        rw [hpEe, hy2e] at h4
        exact hnoty 2 (by norm_num) h4
    have hEq0 : enter net p ≠ q0 := by
      intro he
      rcases hq0s with ⟨h1, h2⟩ | ⟨h1, h2, h3⟩ | ⟨h1, h2, h3⟩
      · rw [h2] at he
        exact hEp0 he
      · rw [h3] at he
        exact hEp1 he
      · rw [h3] at he
        have h4 := congrArg (enter net) he
        rw [hpEe, hx2e] at h4
        exact hnotx 2 (by norm_num) h4
    rw [hE2 _, if_neg hEq1, if_neg hEq0, hE1 _, if_neg hEp1, if_neg hEp0]
    exact hpEe

theorem port_split (p : Nat) (h : port p ≠ 3) :
    port p = 0 ∨ port p = 1 ∨ port p = 2 := by
  unfold port at h ⊢
  omega

theorem link_addr_port (p : Nat) : link (addr p) (port p) = p := by
  unfold link addr port
  omega

set_option maxHeartbeats 8000000 in
theorem comm_enter_reciprocal (net F n2 : Net)
    (x y a b t1 t2 t3 t4 e1 e2 e3 e4 : Nat)
    (hxy : x ≠ y) (hax : a ≠ x) (hay : a ≠ y) (hbx : b ≠ x) (hby : b ≠ y)
    (hab : a ≠ b)
    (hcl : ∀ p < net.nodes.length, port p ≠ 3 → addr p ∉ net.reuse →
      (enter net p < net.nodes.length ∧ port (enter net p) ≠ 3 ∧
        addr (enter net p) ∉ net.reuse ∧
        enter net (enter net p) = p ∧ enter net p ≠ p))
    (hact : enter net (link x 0) = link y 0)
    (hEy0 : enter net (link y 0) = link x 0)
    (he1def : e1 = enter net (link x 1))
    (he2def : e2 = enter net (link x 2))
    (he3def : e3 = enter net (link y 1))
    (he4def : e4 = enter net (link y 2))
    (he1l : e1 < net.nodes.length) (he1r : addr e1 ∉ net.reuse)
    (he1e : enter net e1 = link x 1) (he1ne : e1 ≠ link x 1)
    (he2l : e2 < net.nodes.length) (he2r : addr e2 ∉ net.reuse)
    (he2e : enter net e2 = link x 2) (he2ne : e2 ≠ link x 2)
    (he3l : e3 < net.nodes.length) (he3r : addr e3 ∉ net.reuse)
    (he3e : enter net e3 = link y 1) (he3ne : e3 ≠ link y 1)
    (he4l : e4 < net.nodes.length) (he4r : addr e4 ∉ net.reuse)
    (he4e : enter net e4 = link y 2) (he4ne : e4 ≠ link y 2)
    (hnotab : ∀ q, q < net.nodes.length → addr q ∉ net.reuse →
      addr q ≠ a ∧ addr q ≠ b)
    (hold_a : ∀ q, q < net.nodes.length → addr q ∉ net.reuse →
      ∀ i, i < 4 → q ≠ link a i ∧ q ≠ link b i)
    (hE2old : ∀ q, q < net.nodes.length → addr q ≠ a → addr q ≠ b →
      enter n2 q = enter net q)
    (hold_lt : ∀ q, q < n2.nodes.length → addr q ≠ a → addr q ≠ b →
      q < net.nodes.length)
    (hreuse_old : ∀ m, m ≠ a → m ≠ b → m ∉ n2.reuse → m ∉ net.reuse)
    (ht1v : t1 = e1)
    (ht2s : (link x 2 = e1 ∧ t2 = link b 0) ∨
      (link x 2 ≠ e1 ∧ t2 = e2))
    (ht3s : (link y 1 = t2 ∧ t3 = link y 0) ∨
      (link y 1 ≠ t2 ∧ link y 1 = e1 ∧ t3 = link b 0) ∨
      (link y 1 ≠ t2 ∧ link y 1 ≠ e1 ∧ t3 = e3))
    (ht4s : (link y 2 = t3 ∧ t4 = link a 0) ∨
      (link y 2 ≠ t3 ∧ link y 2 = t2 ∧ t4 = link y 0) ∨
      (link y 2 ≠ t3 ∧ link y 2 ≠ t2 ∧ link y 2 = e1 ∧ t4 = link b 0) ∨
      (link y 2 ≠ t3 ∧ link y 2 ≠ t2 ∧ link y 2 ≠ e1 ∧ t4 = e4))
    (hFlen : F.nodes.length = n2.nodes.length)
    (hFreuse : F.reuse = n2.reuse)
    (hEval : ∀ q, enter F q =
      if q = link y 2 then link x 2 else if q = link x 2 then link y 2
      else if q = link b 2 then link x 1 else if q = link x 1 then link b 2
      else if q = link y 1 then link a 2 else if q = link a 2 then link y 1
      else if q = link b 1 then link a 1 else if q = link a 1 then link b 1
      else if q = t4 then link x 0 else if q = link x 0 then t4
      else if q = t3 then link a 0 else if q = link a 0 then t3
      else if q = t2 then link y 0 else if q = link y 0 then t2
      else if q = t1 then link b 0 else if q = link b 0 then t1
      else enter n2 q) :
    Reciprocal F := by
  have hyx : y ≠ x := Ne.symm hxy
  have hxa : x ≠ a := Ne.symm hax
  have hya : y ≠ a := Ne.symm hay
  have hxb : x ≠ b := Ne.symm hbx
  have hyb : y ≠ b := Ne.symm hby
  have hba : b ≠ a := Ne.symm hab
  have hy2y0 : link y 2 ≠ link y 0 :=
    link_ne _ _ _ _ (by norm_num) (by norm_num) (Or.inr (by norm_num))
  have hy2b0 : link y 2 ≠ link b 0 :=
    link_ne _ _ _ _ (by norm_num) (by norm_num) (Or.inl hyb)
  have hx0t4 : link x 0 ≠ t4 := by
    rcases ht4s with ⟨_, ht⟩ | ⟨_, _, ht⟩ | ⟨_, _, _, ht⟩ |
      ⟨_, _, _, ht⟩ <;> rw [ht]
    · exact link_ne _ _ _ _ (by norm_num) (by norm_num) (Or.inl hxa)
    · exact link_ne _ _ _ _ (by norm_num) (by norm_num) (Or.inl hxy)
    · exact link_ne _ _ _ _ (by norm_num) (by norm_num) (Or.inl hxb)
    · intro h
      have hc := congrArg (enter net) h
      rw [hact, he4e] at hc
      exact absurd hc (link_ne _ _ _ _ (by norm_num) (by norm_num)
        (Or.inr (by norm_num)))
  unfold Reciprocal
  intro p hpl hpp hpr
  rw [hFlen] at hpl
  rw [hFreuse] at hpr
  by_cases h1 : p = link y 2
  · have hv : enter (F) p = link x 2 := by
      rw [hEval, if_pos h1]
    rw [hv, hEval,
      if_neg (link_ne _ _ _ _ (by norm_num) (by norm_num) (Or.inl hxy)),
      if_pos rfl]
    exact h1.symm
  by_cases h2 : p = link x 2
  · have hv : enter (F) p = link y 2 := by
      rw [hEval, if_neg h1, if_pos h2]
    rw [hv, hEval, if_pos rfl]
    exact h2.symm
  by_cases h3 : p = link b 2
  · have hv : enter (F) p = link x 1 := by
      rw [hEval, if_neg h1, if_neg h2, if_pos h3]
    rw [hv, hEval,
      if_neg (link_ne _ _ _ _ (by norm_num) (by norm_num) (Or.inl hxy)),
      if_neg (link_ne _ _ _ _ (by norm_num) (by norm_num)
        (Or.inr (by norm_num))),
      if_neg (link_ne _ _ _ _ (by norm_num) (by norm_num) (Or.inl hxb)),
      if_pos rfl]
    exact h3.symm
  by_cases h4 : p = link x 1
  · have hv : enter (F) p = link b 2 := by
      rw [hEval, if_neg h1, if_neg h2, if_neg h3, if_pos h4]
    rw [hv, hEval,
      if_neg (link_ne _ _ _ _ (by norm_num) (by norm_num) (Or.inl hby)),
      if_neg (link_ne _ _ _ _ (by norm_num) (by norm_num) (Or.inl hbx)),
      if_pos rfl]
    exact h4.symm
  by_cases h5 : p = link y 1
  · have hv : enter (F) p = link a 2 := by
      rw [hEval, if_neg h1, if_neg h2, if_neg h3, if_neg h4, if_pos h5]
    rw [hv, hEval,
      if_neg (link_ne _ _ _ _ (by norm_num) (by norm_num) (Or.inl hay)),
      if_neg (link_ne _ _ _ _ (by norm_num) (by norm_num) (Or.inl hax)),
      if_neg (link_ne _ _ _ _ (by norm_num) (by norm_num) (Or.inl hab)),
      if_neg (link_ne _ _ _ _ (by norm_num) (by norm_num) (Or.inl hax)),
      if_neg (link_ne _ _ _ _ (by norm_num) (by norm_num) (Or.inl hay)),
      if_pos rfl]
    exact h5.symm
  by_cases h6 : p = link a 2
  · have hv : enter (F) p = link y 1 := by
      rw [hEval, if_neg h1, if_neg h2, if_neg h3, if_neg h4, if_neg h5,
        if_pos h6]
    rw [hv, hEval,
      if_neg (link_ne _ _ _ _ (by norm_num) (by norm_num)
        (Or.inr (by norm_num))),
      if_neg (link_ne _ _ _ _ (by norm_num) (by norm_num) (Or.inl hyx)),
      if_neg (link_ne _ _ _ _ (by norm_num) (by norm_num) (Or.inl hyb)),
      if_neg (link_ne _ _ _ _ (by norm_num) (by norm_num) (Or.inl hyx)),
      if_pos rfl]
    exact h6.symm
  by_cases h7 : p = link b 1
  · have hv : enter (F) p = link a 1 := by
      rw [hEval, if_neg h1, if_neg h2, if_neg h3, if_neg h4, if_neg h5,
        if_neg h6, if_pos h7]
    rw [hv, hEval,
      if_neg (link_ne _ _ _ _ (by norm_num) (by norm_num) (Or.inl hay)),
      if_neg (link_ne _ _ _ _ (by norm_num) (by norm_num) (Or.inl hax)),
      if_neg (link_ne _ _ _ _ (by norm_num) (by norm_num) (Or.inl hab)),
      if_neg (link_ne _ _ _ _ (by norm_num) (by norm_num) (Or.inl hax)),
      if_neg (link_ne _ _ _ _ (by norm_num) (by norm_num) (Or.inl hay)),
      if_neg (link_ne _ _ _ _ (by norm_num) (by norm_num)
        (Or.inr (by norm_num))),
      if_neg (link_ne _ _ _ _ (by norm_num) (by norm_num) (Or.inl hab)),
      if_pos rfl]
    exact h7.symm
  by_cases h8 : p = link a 1
  · have hv : enter (F) p = link b 1 := by
      rw [hEval, if_neg h1, if_neg h2, if_neg h3, if_neg h4, if_neg h5,
        if_neg h6, if_neg h7, if_pos h8]
    rw [hv, hEval,
      if_neg (link_ne _ _ _ _ (by norm_num) (by norm_num) (Or.inl hby)),
      if_neg (link_ne _ _ _ _ (by norm_num) (by norm_num) (Or.inl hbx)),
      if_neg (link_ne _ _ _ _ (by norm_num) (by norm_num)
        (Or.inr (by norm_num))),
      if_neg (link_ne _ _ _ _ (by norm_num) (by norm_num) (Or.inl hbx)),
      if_neg (link_ne _ _ _ _ (by norm_num) (by norm_num) (Or.inl hby)),
      if_neg (link_ne _ _ _ _ (by norm_num) (by norm_num) (Or.inl hba)),
      if_pos rfl]
    exact h8.symm
  by_cases h9 : p = t4
  · have hv : enter (F) p = link x 0 := by
      rw [hEval, if_neg h1, if_neg h2, if_neg h3, if_neg h4, if_neg h5,
        if_neg h6, if_neg h7, if_neg h8, if_pos h9]
    rw [hv, hEval,
      if_neg (link_ne _ _ _ _ (by norm_num) (by norm_num) (Or.inl hxy)),
      if_neg (link_ne _ _ _ _ (by norm_num) (by norm_num)
        (Or.inr (by norm_num))),
      if_neg (link_ne _ _ _ _ (by norm_num) (by norm_num) (Or.inl hxb)),
      if_neg (link_ne _ _ _ _ (by norm_num) (by norm_num)
        (Or.inr (by norm_num))),
      if_neg (link_ne _ _ _ _ (by norm_num) (by norm_num) (Or.inl hxy)),
      if_neg (link_ne _ _ _ _ (by norm_num) (by norm_num) (Or.inl hxa)),
      if_neg (link_ne _ _ _ _ (by norm_num) (by norm_num) (Or.inl hxb)),
      if_neg (link_ne _ _ _ _ (by norm_num) (by norm_num) (Or.inl hxa)),
      if_neg hx0t4, if_pos rfl]
    exact h9.symm
  by_cases h10 : p = link x 0
  · have hv : enter (F) p = t4 := by
      rw [hEval, if_neg h1, if_neg h2, if_neg h3, if_neg h4, if_neg h5,
        if_neg h6, if_neg h7, if_neg h8, if_neg h9, if_pos h10]
    rcases ht4s with ⟨hd1, ht⟩ | ⟨hd1, hd2, ht⟩ | ⟨hd1, hd2, hd3, ht⟩ |
      ⟨hd1, hd2, hd3, ht⟩
    · rw [hv, ht, hEval,
        if_neg (link_ne _ _ _ _ (by norm_num) (by norm_num) (Or.inl hay)),
        if_neg (link_ne _ _ _ _ (by norm_num) (by norm_num) (Or.inl hax)),
        if_neg (link_ne _ _ _ _ (by norm_num) (by norm_num) (Or.inl hab)),
        if_neg (link_ne _ _ _ _ (by norm_num) (by norm_num) (Or.inl hax)),
        if_neg (link_ne _ _ _ _ (by norm_num) (by norm_num) (Or.inl hay)),
        if_neg (link_ne _ _ _ _ (by norm_num) (by norm_num)
          (Or.inr (by norm_num))),
        if_neg (link_ne _ _ _ _ (by norm_num) (by norm_num) (Or.inl hab)),
        if_neg (link_ne _ _ _ _ (by norm_num) (by norm_num)
          (Or.inr (by norm_num))),
        if_pos ht.symm]
      exact h10.symm
    · rw [hv, ht, hEval,
        if_neg (link_ne _ _ _ _ (by norm_num) (by norm_num)
          (Or.inr (by norm_num))),
        if_neg (link_ne _ _ _ _ (by norm_num) (by norm_num) (Or.inl hyx)),
        if_neg (link_ne _ _ _ _ (by norm_num) (by norm_num) (Or.inl hyb)),
        if_neg (link_ne _ _ _ _ (by norm_num) (by norm_num) (Or.inl hyx)),
        if_neg (link_ne _ _ _ _ (by norm_num) (by norm_num)
          (Or.inr (by norm_num))),
        if_neg (link_ne _ _ _ _ (by norm_num) (by norm_num) (Or.inl hya)),
        if_neg (link_ne _ _ _ _ (by norm_num) (by norm_num) (Or.inl hyb)),
        if_neg (link_ne _ _ _ _ (by norm_num) (by norm_num) (Or.inl hya)),
        if_pos ht.symm]
      exact h10.symm
    · rw [hv, ht, hEval,
        if_neg (link_ne _ _ _ _ (by norm_num) (by norm_num) (Or.inl hby)),
        if_neg (link_ne _ _ _ _ (by norm_num) (by norm_num) (Or.inl hbx)),
        if_neg (link_ne _ _ _ _ (by norm_num) (by norm_num)
          (Or.inr (by norm_num))),
        if_neg (link_ne _ _ _ _ (by norm_num) (by norm_num) (Or.inl hbx)),
        if_neg (link_ne _ _ _ _ (by norm_num) (by norm_num) (Or.inl hby)),
        if_neg (link_ne _ _ _ _ (by norm_num) (by norm_num) (Or.inl hba)),
        if_neg (link_ne _ _ _ _ (by norm_num) (by norm_num)
          (Or.inr (by norm_num))),
        if_neg (link_ne _ _ _ _ (by norm_num) (by norm_num) (Or.inl hba)),
        if_pos ht.symm]
      exact h10.symm
    · have he4x2 : e4 ≠ link x 2 := by
        intro h
        have hc := congrArg (enter net) h
        rw [he4e] at hc
        rw [← he2def] at hc
        rcases ht2s with ⟨hx2e1, ht2⟩ | ⟨_, ht2⟩
        · rw [hx2e1] at h
          have hc2 := congrArg (enter net) h
          rw [he4e, he1e] at hc2
          exact absurd hc2 (link_ne _ _ _ _ (by norm_num) (by norm_num)
            (Or.inl hyx))
        · exact hd2 (by rw [ht2]; exact hc)
      have he4x1 : e4 ≠ link x 1 := by
        intro h
        have hc := congrArg (enter net) h
        rw [he4e] at hc
        rw [← he1def] at hc
        exact hd3 hc
      have he4y1 : e4 ≠ link y 1 := by
        intro h
        have hc := congrArg (enter net) h
        rw [he4e] at hc
        rw [← he3def] at hc
        rcases ht3s with ⟨hy1t2, _⟩ | ⟨_, hy1e1, _⟩ | ⟨_, _, ht3⟩
        · rcases ht2s with ⟨hx2e1, ht2⟩ | ⟨_, ht2⟩
          · rw [ht2] at hy1t2
            exact absurd hy1t2 (link_ne _ _ _ _ (by norm_num) (by norm_num)
              (Or.inl hyb))
          · rw [ht2] at hy1t2
            have hc2 := congrArg (enter net) hy1t2
            rw [he2e] at hc2
            rw [← he3def] at hc2
            rw [hc2] at hc
            exact absurd hc (link_ne _ _ _ _ (by norm_num) (by norm_num)
              (Or.inl hyx))
        · have hc2 := congrArg (enter net) hy1e1
          rw [he1e] at hc2
          rw [← he3def] at hc2
          rw [hc2] at hc
          exact absurd hc (link_ne _ _ _ _ (by norm_num) (by norm_num)
            (Or.inl hyx))
        · exact hd1 (by rw [ht3]; exact hc)
      rw [hv, ht, hEval, if_neg he4ne, if_neg he4x2,
        if_neg (hold_a e4 he4l he4r 2 (by norm_num)).2, if_neg he4x1,
        if_neg he4y1, if_neg (hold_a e4 he4l he4r 2 (by norm_num)).1,
        if_neg (hold_a e4 he4l he4r 1 (by norm_num)).2,
        if_neg (hold_a e4 he4l he4r 1 (by norm_num)).1,
        if_pos ht.symm]
      exact h10.symm
  by_cases h11 : p = t3
  · have hv : enter (F) p = link a 0 := by
      rw [hEval, if_neg h1, if_neg h2, if_neg h3, if_neg h4, if_neg h5,
        if_neg h6, if_neg h7, if_neg h8, if_neg h9, if_neg h10, if_pos h11]
    have ha0t4 : link a 0 ≠ t4 := by
      rcases ht4s with ⟨hd, ht⟩ | ⟨_, _, ht⟩ | ⟨_, _, _, ht⟩ |
        ⟨_, _, _, ht⟩
      · exact absurd (h11.trans hd.symm) h1
      · rw [ht]
        exact link_ne _ _ _ _ (by norm_num) (by norm_num) (Or.inl hay)
      · rw [ht]
        exact link_ne _ _ _ _ (by norm_num) (by norm_num) (Or.inl hab)
      · rw [ht]
        intro h
        exact (hold_a e4 he4l he4r 0 (by norm_num)).1 h.symm
    have ha0t3 : link a 0 ≠ t3 := by
      rcases ht3s with ⟨_, ht⟩ | ⟨_, _, ht⟩ | ⟨_, _, ht⟩ <;> rw [ht]
      · exact link_ne _ _ _ _ (by norm_num) (by norm_num) (Or.inl hay)
      · exact link_ne _ _ _ _ (by norm_num) (by norm_num) (Or.inl hab)
      · intro h
        exact (hold_a e3 he3l he3r 0 (by norm_num)).1 h.symm
    rw [hv, hEval,
      if_neg (link_ne _ _ _ _ (by norm_num) (by norm_num) (Or.inl hay)),
      if_neg (link_ne _ _ _ _ (by norm_num) (by norm_num) (Or.inl hax)),
      if_neg (link_ne _ _ _ _ (by norm_num) (by norm_num) (Or.inl hab)),
      if_neg (link_ne _ _ _ _ (by norm_num) (by norm_num) (Or.inl hax)),
      if_neg (link_ne _ _ _ _ (by norm_num) (by norm_num) (Or.inl hay)),
      if_neg (link_ne _ _ _ _ (by norm_num) (by norm_num)
        (Or.inr (by norm_num))),
      if_neg (link_ne _ _ _ _ (by norm_num) (by norm_num) (Or.inl hab)),
      if_neg (link_ne _ _ _ _ (by norm_num) (by norm_num)
        (Or.inr (by norm_num))),
      if_neg ha0t4,
      if_neg (link_ne _ _ _ _ (by norm_num) (by norm_num) (Or.inl hax)),
      if_neg ha0t3, if_pos rfl]
    exact h11.symm
  by_cases h12 : p = link a 0
  · have hv : enter (F) p = t3 := by
      rw [hEval, if_neg h1, if_neg h2, if_neg h3, if_neg h4, if_neg h5,
        if_neg h6, if_neg h7, if_neg h8, if_neg h9, if_neg h10, if_neg h11,
        if_pos h12]
    rcases ht3s with ⟨hy1t2, ht⟩ | ⟨hy1t2n, hy1e1, ht⟩ |
      ⟨hy1t2n, hy1e1n, ht⟩
    · have hy0t4 : link y 0 ≠ t4 := by
        rcases ht4s with ⟨_, ht4⟩ | ⟨_, hy2t2, ht4⟩ | ⟨_, _, _, ht4⟩ |
          ⟨_, _, _, ht4⟩
        · exact absurd (h12.trans ht4.symm) h9
        · rw [← hy1t2] at hy2t2
          exact absurd hy2t2 (link_ne _ _ _ _ (by norm_num) (by norm_num)
            (Or.inr (by norm_num)))
        · rw [ht4]
          exact link_ne _ _ _ _ (by norm_num) (by norm_num) (Or.inl hyb)
        · rw [ht4]
          intro h
          have hc := congrArg (enter net) h
          rw [hEy0, he4e] at hc
          exact absurd hc (link_ne _ _ _ _ (by norm_num) (by norm_num)
            (Or.inl hxy))
      rw [hv, ht, hEval,
        if_neg (link_ne _ _ _ _ (by norm_num) (by norm_num)
          (Or.inr (by norm_num))),
        if_neg (link_ne _ _ _ _ (by norm_num) (by norm_num) (Or.inl hyx)),
        if_neg (link_ne _ _ _ _ (by norm_num) (by norm_num) (Or.inl hyb)),
        if_neg (link_ne _ _ _ _ (by norm_num) (by norm_num) (Or.inl hyx)),
        if_neg (link_ne _ _ _ _ (by norm_num) (by norm_num)
          (Or.inr (by norm_num))),
        if_neg (link_ne _ _ _ _ (by norm_num) (by norm_num) (Or.inl hya)),
        if_neg (link_ne _ _ _ _ (by norm_num) (by norm_num) (Or.inl hyb)),
        if_neg (link_ne _ _ _ _ (by norm_num) (by norm_num) (Or.inl hya)),
        if_neg hy0t4,
        if_neg (link_ne _ _ _ _ (by norm_num) (by norm_num) (Or.inl hyx)),
        if_pos ht.symm]
      exact h12.symm
    · have hb0t4 : link b 0 ≠ t4 := by
        rcases ht4s with ⟨_, ht4⟩ | ⟨_, _, ht4⟩ | ⟨_, _, hy2e1, ht4⟩ |
          ⟨_, _, _, ht4⟩
        · exact absurd (h12.trans ht4.symm) h9
        · rw [ht4]
          exact link_ne _ _ _ _ (by norm_num) (by norm_num) (Or.inl hby)
        · rw [← hy1e1] at hy2e1
          exact absurd hy2e1 (link_ne _ _ _ _ (by norm_num) (by norm_num)
            (Or.inr (by norm_num)))
        · rw [ht4]
          intro h
          exact (hold_a e4 he4l he4r 0 (by norm_num)).2 h.symm
      rw [hv, ht, hEval,
        if_neg (link_ne _ _ _ _ (by norm_num) (by norm_num) (Or.inl hby)),
        if_neg (link_ne _ _ _ _ (by norm_num) (by norm_num) (Or.inl hbx)),
        if_neg (link_ne _ _ _ _ (by norm_num) (by norm_num)
          (Or.inr (by norm_num))),
        if_neg (link_ne _ _ _ _ (by norm_num) (by norm_num) (Or.inl hbx)),
        if_neg (link_ne _ _ _ _ (by norm_num) (by norm_num) (Or.inl hby)),
        if_neg (link_ne _ _ _ _ (by norm_num) (by norm_num) (Or.inl hba)),
        if_neg (link_ne _ _ _ _ (by norm_num) (by norm_num)
          (Or.inr (by norm_num))),
        if_neg (link_ne _ _ _ _ (by norm_num) (by norm_num) (Or.inl hba)),
        if_neg hb0t4,
        if_neg (link_ne _ _ _ _ (by norm_num) (by norm_num) (Or.inl hbx)),
        if_pos ht.symm]
      exact h12.symm
    · have he3y2 : e3 ≠ link y 2 := by
        intro h
        have hy2t3 : link y 2 = t3 := by
          rw [ht]
          exact h.symm
        rcases ht4s with ⟨_, ht4⟩ | ⟨hn, _, _⟩ | ⟨hn, _, _⟩ | ⟨hn, _, _⟩
        · exact absurd (h12.trans ht4.symm) h9
        · exact hn hy2t3
        · exact hn hy2t3
        · exact hn hy2t3
      have he3x2 : e3 ≠ link x 2 := by
        intro h
        have hc := congrArg (enter net) h
        rw [he3e] at hc
        rw [← he2def] at hc
        rcases ht2s with ⟨hx2e1, _⟩ | ⟨_, ht2⟩
        · rw [hx2e1] at h
          have hc2 := congrArg (enter net) h
          rw [he3e, he1e] at hc2
          exact absurd hc2 (link_ne _ _ _ _ (by norm_num) (by norm_num)
            (Or.inl hyx))
        · exact hy1t2n (by rw [ht2]; exact hc)
      have he3x1 : e3 ≠ link x 1 := by
        intro h
        have hc := congrArg (enter net) h
        rw [he3e] at hc
        rw [← he1def] at hc
        exact hy1e1n hc
      have he3t4 : e3 ≠ t4 := by
        rcases ht4s with ⟨_, ht4⟩ | ⟨_, _, ht4⟩ | ⟨_, _, _, ht4⟩ |
          ⟨_, _, _, ht4⟩
        · exact absurd (h12.trans ht4.symm) h9
        · rw [ht4]
          intro h
          have hc := congrArg (enter net) h
          rw [he3e, hEy0] at hc
          exact absurd hc (link_ne _ _ _ _ (by norm_num) (by norm_num)
            (Or.inl hyx))
        · rw [ht4]
          exact (hold_a e3 he3l he3r 0 (by norm_num)).2
        · rw [ht4]
          intro h
          have hc := congrArg (enter net) h
          rw [he3e, he4e] at hc
          exact absurd hc (link_ne _ _ _ _ (by norm_num) (by norm_num)
            (Or.inr (by norm_num)))
      have he3x0 : e3 ≠ link x 0 := by
        intro h
        have hc := congrArg (enter net) h
        rw [he3e, hact] at hc
        exact absurd hc (link_ne _ _ _ _ (by norm_num) (by norm_num)
          (Or.inr (by norm_num)))
      rw [hv, ht, hEval, if_neg he3y2, if_neg he3x2,
        if_neg (hold_a e3 he3l he3r 2 (by norm_num)).2, if_neg he3x1,
        if_neg he3ne, if_neg (hold_a e3 he3l he3r 2 (by norm_num)).1,
        if_neg (hold_a e3 he3l he3r 1 (by norm_num)).2,
        if_neg (hold_a e3 he3l he3r 1 (by norm_num)).1,
        if_neg he3t4, if_neg he3x0, if_pos ht.symm]
      exact h12.symm
  by_cases h13 : p = t2
  · have hv : enter (F) p = link y 0 := by
      rw [hEval, if_neg h1, if_neg h2, if_neg h3, if_neg h4, if_neg h5,
        if_neg h6, if_neg h7, if_neg h8, if_neg h9, if_neg h10, if_neg h11,
        if_neg h12, if_pos h13]
    have hy0t4 : link y 0 ≠ t4 := by
      rcases ht4s with ⟨_, ht4⟩ | ⟨_, hy2t2, _⟩ | ⟨_, _, _, ht4⟩ |
        ⟨_, _, _, ht4⟩
      · rw [ht4]
        exact link_ne _ _ _ _ (by norm_num) (by norm_num) (Or.inl hya)
      · exact absurd (h13.trans hy2t2.symm) h1
      · rw [ht4]
        exact link_ne _ _ _ _ (by norm_num) (by norm_num) (Or.inl hyb)
      · rw [ht4]
        intro h
        have hc := congrArg (enter net) h
        rw [hEy0, he4e] at hc
        exact absurd hc (link_ne _ _ _ _ (by norm_num) (by norm_num)
          (Or.inl hxy))
    have hy0t3 : link y 0 ≠ t3 := by
      rcases ht3s with ⟨hy1t2, _⟩ | ⟨_, _, ht3⟩ | ⟨_, _, ht3⟩
      · exact absurd (h13.trans hy1t2.symm) h5
      · rw [ht3]
        exact link_ne _ _ _ _ (by norm_num) (by norm_num) (Or.inl hyb)
      · rw [ht3]
        intro h
        have hc := congrArg (enter net) h
        rw [hEy0, he3e] at hc
        exact absurd hc (link_ne _ _ _ _ (by norm_num) (by norm_num)
          (Or.inl hxy))
    have hy0t2 : link y 0 ≠ t2 := by
      rcases ht2s with ⟨_, ht2⟩ | ⟨_, ht2⟩ <;> rw [ht2]
      · exact link_ne _ _ _ _ (by norm_num) (by norm_num) (Or.inl hyb)
      · intro h
        have hc := congrArg (enter net) h
        rw [hEy0, he2e] at hc
        exact absurd hc (link_ne _ _ _ _ (by norm_num) (by norm_num)
          (Or.inr (by norm_num)))
    rw [hv, hEval,
      if_neg (link_ne _ _ _ _ (by norm_num) (by norm_num)
        (Or.inr (by norm_num))),
      if_neg (link_ne _ _ _ _ (by norm_num) (by norm_num) (Or.inl hyx)),
      if_neg (link_ne _ _ _ _ (by norm_num) (by norm_num) (Or.inl hyb)),
      if_neg (link_ne _ _ _ _ (by norm_num) (by norm_num) (Or.inl hyx)),
      if_neg (link_ne _ _ _ _ (by norm_num) (by norm_num)
        (Or.inr (by norm_num))),
      if_neg (link_ne _ _ _ _ (by norm_num) (by norm_num) (Or.inl hya)),
      if_neg (link_ne _ _ _ _ (by norm_num) (by norm_num) (Or.inl hyb)),
      if_neg (link_ne _ _ _ _ (by norm_num) (by norm_num) (Or.inl hya)),
      if_neg hy0t4,
      if_neg (link_ne _ _ _ _ (by norm_num) (by norm_num) (Or.inl hyx)),
      if_neg hy0t3,
      if_neg (link_ne _ _ _ _ (by norm_num) (by norm_num) (Or.inl hya)),
      if_neg hy0t2, if_pos rfl]
    exact h13.symm
  by_cases h14 : p = link y 0
  · have hv : enter (F) p = t2 := by
      rw [hEval, if_neg h1, if_neg h2, if_neg h3, if_neg h4, if_neg h5,
        if_neg h6, if_neg h7, if_neg h8, if_neg h9, if_neg h10, if_neg h11,
        if_neg h12, if_neg h13, if_pos h14]
    rcases ht2s with ⟨hx2e1, ht⟩ | ⟨hx2e1n, ht⟩
    · have hb0t4 : link b 0 ≠ t4 := by
        rcases ht4s with ⟨_, ht4⟩ | ⟨_, _, ht4⟩ | ⟨_, _, hy2e1, _⟩ |
          ⟨_, _, _, ht4⟩
        · rw [ht4]
          exact link_ne _ _ _ _ (by norm_num) (by norm_num) (Or.inl hba)
        · exact absurd (h14.trans ht4.symm) h9
        · rw [← hx2e1] at hy2e1
          exact absurd hy2e1 (link_ne _ _ _ _ (by norm_num) (by norm_num)
            (Or.inl hyx))
        · rw [ht4]
          intro h
          exact (hold_a e4 he4l he4r 0 (by norm_num)).2 h.symm
      have hb0t3 : link b 0 ≠ t3 := by
        rcases ht3s with ⟨_, ht3⟩ | ⟨_, hy1e1, _⟩ | ⟨_, _, ht3⟩
        · exact absurd (h14.trans ht3.symm) h11
        · rw [← hx2e1] at hy1e1
          exact absurd hy1e1 (link_ne _ _ _ _ (by norm_num) (by norm_num)
            (Or.inl hyx))
        · rw [ht3]
          intro h
          exact (hold_a e3 he3l he3r 0 (by norm_num)).2 h.symm
      rw [hv, ht, hEval,
        if_neg (link_ne _ _ _ _ (by norm_num) (by norm_num) (Or.inl hby)),
        if_neg (link_ne _ _ _ _ (by norm_num) (by norm_num) (Or.inl hbx)),
        if_neg (link_ne _ _ _ _ (by norm_num) (by norm_num)
          (Or.inr (by norm_num))),
        if_neg (link_ne _ _ _ _ (by norm_num) (by norm_num) (Or.inl hbx)),
        if_neg (link_ne _ _ _ _ (by norm_num) (by norm_num) (Or.inl hby)),
        if_neg (link_ne _ _ _ _ (by norm_num) (by norm_num) (Or.inl hba)),
        if_neg (link_ne _ _ _ _ (by norm_num) (by norm_num)
          (Or.inr (by norm_num))),
        if_neg (link_ne _ _ _ _ (by norm_num) (by norm_num) (Or.inl hba)),
        if_neg hb0t4,
        if_neg (link_ne _ _ _ _ (by norm_num) (by norm_num) (Or.inl hbx)),
        if_neg hb0t3,
        if_neg (link_ne _ _ _ _ (by norm_num) (by norm_num) (Or.inl hba)),
        if_pos ht.symm]
      exact h14.symm
    · have he2y2 : e2 ≠ link y 2 := by
        intro h
        have hy2t2 : link y 2 = t2 := by
          rw [ht]
          exact h.symm
        rcases ht4s with ⟨hy2t3, _⟩ | ⟨_, _, ht4⟩ | ⟨_, hn, _⟩ |
          ⟨_, hn, _⟩
        · rcases ht3s with ⟨_, ht3⟩ | ⟨_, _, ht3⟩ | ⟨_, _, ht3⟩
          · rw [ht3] at hy2t3
            exact absurd hy2t3 hy2y0
          · rw [ht3] at hy2t3
            exact absurd hy2t3 hy2b0
          · rw [ht3] at hy2t3
            have hc1 := congrArg (enter net) hy2t3
            rw [he3e] at hc1
            rw [← he4def] at hc1
            have hc2 := congrArg (enter net) h
            rw [he2e] at hc2
            rw [← he4def] at hc2
            rw [hc1] at hc2
            exact absurd hc2 (link_ne _ _ _ _ (by norm_num) (by norm_num)
              (Or.inl hxy))
        · exact absurd (h14.trans ht4.symm) h9
        · exact hn hy2t2
        · exact hn hy2t2
      have he2x1 : e2 ≠ link x 1 := by
        intro h
        have hc := congrArg (enter net) h
        rw [he2e] at hc
        rw [← he1def] at hc
        exact hx2e1n hc
      have he2y1 : e2 ≠ link y 1 := by
        intro h
        have hy1t2 : link y 1 = t2 := by
          rw [ht]
          exact h.symm
        rcases ht3s with ⟨_, ht3⟩ | ⟨hn, _, _⟩ | ⟨hn, _, _⟩
        · exact absurd (h14.trans ht3.symm) h11
        · exact hn hy1t2
        · exact hn hy1t2
      have he2t4 : e2 ≠ t4 := by
        rcases ht4s with ⟨_, ht4⟩ | ⟨_, _, ht4⟩ | ⟨_, _, _, ht4⟩ |
          ⟨_, _, _, ht4⟩
        · rw [ht4]
          exact (hold_a e2 he2l he2r 0 (by norm_num)).1
        · exact absurd (h14.trans ht4.symm) h9
        · rw [ht4]
          exact (hold_a e2 he2l he2r 0 (by norm_num)).2
        · rw [ht4]
          intro h
          have hc := congrArg (enter net) h
          rw [he2e, he4e] at hc
          exact absurd hc (link_ne _ _ _ _ (by norm_num) (by norm_num)
            (Or.inl hxy))
      have he2x0 : e2 ≠ link x 0 := by
        intro h
        have hc := congrArg (enter net) h
        rw [he2e, hact] at hc
        exact absurd hc (link_ne _ _ _ _ (by norm_num) (by norm_num)
          (Or.inl hxy))
      have he2t3 : e2 ≠ t3 := by
        rcases ht3s with ⟨_, ht3⟩ | ⟨_, _, ht3⟩ | ⟨_, _, ht3⟩
        · exact absurd (h14.trans ht3.symm) h11
        · rw [ht3]
          exact (hold_a e2 he2l he2r 0 (by norm_num)).2
        · rw [ht3]
          intro h
          have hc := congrArg (enter net) h
          rw [he2e, he3e] at hc
          exact absurd hc (link_ne _ _ _ _ (by norm_num) (by norm_num)
            (Or.inl hxy))
      rw [hv, ht, hEval, if_neg he2y2, if_neg he2ne,
        if_neg (hold_a e2 he2l he2r 2 (by norm_num)).2, if_neg he2x1,
        if_neg he2y1, if_neg (hold_a e2 he2l he2r 2 (by norm_num)).1,
        if_neg (hold_a e2 he2l he2r 1 (by norm_num)).2,
        if_neg (hold_a e2 he2l he2r 1 (by norm_num)).1,
        if_neg he2t4, if_neg he2x0, if_neg he2t3,
        if_neg (hold_a e2 he2l he2r 0 (by norm_num)).1,
        if_pos ht.symm]
      exact h14.symm
  by_cases h15 : p = t1
  · have hv : enter (F) p = link b 0 := by
      rw [hEval, if_neg h1, if_neg h2, if_neg h3, if_neg h4, if_neg h5,
        if_neg h6, if_neg h7, if_neg h8, if_neg h9, if_neg h10, if_neg h11,
        if_neg h12, if_neg h13, if_neg h14, if_pos h15]
    have hb0t4 : link b 0 ≠ t4 := by
      rcases ht4s with ⟨_, ht4⟩ | ⟨_, _, ht4⟩ | ⟨_, _, hy2e1, _⟩ |
        ⟨_, _, _, ht4⟩
      · rw [ht4]
        exact link_ne _ _ _ _ (by norm_num) (by norm_num) (Or.inl hba)
      · rw [ht4]
        exact link_ne _ _ _ _ (by norm_num) (by norm_num) (Or.inl hby)
      · exact absurd (h15.trans (ht1v.trans hy2e1.symm)) h1
      · rw [ht4]
        intro h
        exact (hold_a e4 he4l he4r 0 (by norm_num)).2 h.symm
    have hb0t3 : link b 0 ≠ t3 := by
      rcases ht3s with ⟨_, ht3⟩ | ⟨_, hy1e1, _⟩ | ⟨_, _, ht3⟩
      · rw [ht3]
        exact link_ne _ _ _ _ (by norm_num) (by norm_num) (Or.inl hby)
      · exact absurd (h15.trans (ht1v.trans hy1e1.symm)) h5
      · rw [ht3]
        intro h
        exact (hold_a e3 he3l he3r 0 (by norm_num)).2 h.symm
    have hb0t2 : link b 0 ≠ t2 := by
      rcases ht2s with ⟨hx2e1, _⟩ | ⟨_, ht2⟩
      · exact absurd (h15.trans (ht1v.trans hx2e1.symm)) h2
      · rw [ht2]
        intro h
        exact (hold_a e2 he2l he2r 0 (by norm_num)).2 h.symm
    have hb0t1 : link b 0 ≠ t1 := by
      rw [ht1v]
      intro h
      exact (hold_a e1 he1l he1r 0 (by norm_num)).2 h.symm
    rw [hv, hEval,
      if_neg (link_ne _ _ _ _ (by norm_num) (by norm_num) (Or.inl hby)),
      if_neg (link_ne _ _ _ _ (by norm_num) (by norm_num) (Or.inl hbx)),
      if_neg (link_ne _ _ _ _ (by norm_num) (by norm_num)
        (Or.inr (by norm_num))),
      if_neg (link_ne _ _ _ _ (by norm_num) (by norm_num) (Or.inl hbx)),
      if_neg (link_ne _ _ _ _ (by norm_num) (by norm_num) (Or.inl hby)),
      if_neg (link_ne _ _ _ _ (by norm_num) (by norm_num) (Or.inl hba)),
      if_neg (link_ne _ _ _ _ (by norm_num) (by norm_num)
        (Or.inr (by norm_num))),
      if_neg (link_ne _ _ _ _ (by norm_num) (by norm_num) (Or.inl hba)),
      if_neg hb0t4,
      if_neg (link_ne _ _ _ _ (by norm_num) (by norm_num) (Or.inl hbx)),
      if_neg hb0t3,
      if_neg (link_ne _ _ _ _ (by norm_num) (by norm_num) (Or.inl hba)),
      if_neg hb0t2,
      if_neg (link_ne _ _ _ _ (by norm_num) (by norm_num) (Or.inl hby)),
      if_neg hb0t1, if_pos rfl]
    exact h15.symm
  by_cases h16 : p = link b 0
  · have hv : enter (F) p = t1 := by
      rw [hEval, if_neg h1, if_neg h2, if_neg h3, if_neg h4, if_neg h5,
        if_neg h6, if_neg h7, if_neg h8, if_neg h9, if_neg h10, if_neg h11,
        if_neg h12, if_neg h13, if_neg h14, if_neg h15, if_pos h16]
    have he1y2 : e1 ≠ link y 2 := by
      intro h
      rcases ht4s with ⟨hy2t3, _⟩ | ⟨_, hy2t2, _⟩ | ⟨_, _, _, ht4⟩ |
        ⟨_, _, hn, _⟩
      · rcases ht3s with ⟨_, ht3⟩ | ⟨_, _, ht3⟩ | ⟨_, _, ht3⟩
        · rw [ht3] at hy2t3
          exact absurd hy2t3 hy2y0
        · rw [ht3] at hy2t3
          exact absurd hy2t3 hy2b0
        · rw [ht3] at hy2t3
          have hc1 := congrArg (enter net) hy2t3
          rw [he3e] at hc1
          rw [← he4def] at hc1
          have hc2 := congrArg (enter net) h
          rw [he1e] at hc2
          rw [← he4def] at hc2
          rw [hc1] at hc2
          exact absurd hc2 (link_ne _ _ _ _ (by norm_num) (by norm_num)
            (Or.inl hxy))
      · rcases ht2s with ⟨_, ht2⟩ | ⟨_, ht2⟩
        · rw [ht2] at hy2t2
          exact absurd hy2t2 hy2b0
        · rw [ht2] at hy2t2
          have hc1 := congrArg (enter net) hy2t2
          rw [he2e] at hc1
          rw [← he4def] at hc1
          have hc2 := congrArg (enter net) h
          rw [he1e] at hc2
          rw [← he4def] at hc2
          rw [hc1] at hc2
          exact absurd hc2 (link_ne _ _ _ _ (by norm_num) (by norm_num)
            (Or.inr (by norm_num)))
      · exact absurd (h16.trans ht4.symm) h9
      · exact hn h.symm
    have he1x2 : e1 ≠ link x 2 := by
      intro h
      rcases ht2s with ⟨_, ht2⟩ | ⟨hn, _⟩
      · exact absurd (h16.trans ht2.symm) h13
      · exact hn h.symm
    have he1y1 : e1 ≠ link y 1 := by
      intro h
      rcases ht3s with ⟨hy1t2, _⟩ | ⟨_, _, ht3⟩ | ⟨_, hn, _⟩
      · rcases ht2s with ⟨_, ht2⟩ | ⟨_, ht2⟩
        · rw [ht2] at hy1t2
          exact absurd hy1t2 (link_ne _ _ _ _ (by norm_num) (by norm_num)
            (Or.inl hyb))
        · rw [ht2] at hy1t2
          rw [← h] at hy1t2
          have hc := congrArg (enter net) hy1t2
          rw [he1e, he2e] at hc
          exact absurd hc (link_ne _ _ _ _ (by norm_num) (by norm_num)
            (Or.inr (by norm_num)))
      · exact absurd (h16.trans ht3.symm) h11
      · exact hn h.symm
    have he1t4 : e1 ≠ t4 := by
      rcases ht4s with ⟨_, ht4⟩ | ⟨_, _, ht4⟩ | ⟨_, _, _, ht4⟩ |
        ⟨_, _, _, ht4⟩
      · rw [ht4]
        exact (hold_a e1 he1l he1r 0 (by norm_num)).1
      · rw [ht4]
        intro h
        have hc := congrArg (enter net) h
        rw [he1e, hEy0] at hc
        exact absurd hc (link_ne _ _ _ _ (by norm_num) (by norm_num)
          (Or.inr (by norm_num)))
      · exact absurd (h16.trans ht4.symm) h9
      · rw [ht4]
        intro h
        have hc := congrArg (enter net) h
        rw [he1e, he4e] at hc
        exact absurd hc (link_ne _ _ _ _ (by norm_num) (by norm_num)
          (Or.inl hxy))
    have he1x0 : e1 ≠ link x 0 := by
      intro h
      have hc := congrArg (enter net) h
      rw [he1e, hact] at hc
      exact absurd hc (link_ne _ _ _ _ (by norm_num) (by norm_num)
        (Or.inl hxy))
    have he1t3 : e1 ≠ t3 := by
      rcases ht3s with ⟨_, ht3⟩ | ⟨_, _, ht3⟩ | ⟨_, _, ht3⟩
      · rw [ht3]
        intro h
        have hc := congrArg (enter net) h
        rw [he1e, hEy0] at hc
        exact absurd hc (link_ne _ _ _ _ (by norm_num) (by norm_num)
          (Or.inr (by norm_num)))
      · exact absurd (h16.trans ht3.symm) h11
      · rw [ht3]
        intro h
        have hc := congrArg (enter net) h
        rw [he1e, he3e] at hc
        exact absurd hc (link_ne _ _ _ _ (by norm_num) (by norm_num)
          (Or.inl hxy))
    have he1t2 : e1 ≠ t2 := by
      rcases ht2s with ⟨_, ht2⟩ | ⟨_, ht2⟩
      · exact absurd (h16.trans ht2.symm) h13
      · rw [ht2]
        intro h
        have hc := congrArg (enter net) h
        rw [he1e, he2e] at hc
        exact absurd hc (link_ne _ _ _ _ (by norm_num) (by norm_num)
          (Or.inr (by norm_num)))
    have he1y0 : e1 ≠ link y 0 := by
      intro h
      have hc := congrArg (enter net) h
      rw [he1e, hEy0] at hc
      exact absurd hc (link_ne _ _ _ _ (by norm_num) (by norm_num)
        (Or.inr (by norm_num)))
    rw [hv, ht1v, hEval, if_neg he1y2, if_neg he1x2,
      if_neg (hold_a e1 he1l he1r 2 (by norm_num)).2, if_neg he1ne,
      if_neg he1y1, if_neg (hold_a e1 he1l he1r 2 (by norm_num)).1,
      if_neg (hold_a e1 he1l he1r 1 (by norm_num)).2,
      if_neg (hold_a e1 he1l he1r 1 (by norm_num)).1,
      if_neg he1t4, if_neg he1x0, if_neg he1t3,
      if_neg (hold_a e1 he1l he1r 0 (by norm_num)).1,
      if_neg he1t2, if_neg he1y0, if_pos ht1v.symm]
    exact h16.symm
  have hpa : addr p ≠ a := by
    intro hpa
    have hlp : link (addr p) (port p) = p := link_addr_port p
    rcases port_split p hpp with hp0 | hp0 | hp0 <;> rw [hpa, hp0] at hlp
    · exact h12 hlp.symm
    · exact h8 hlp.symm
    · exact h6 hlp.symm
  have hpb : addr p ≠ b := by
    intro hpb
    have hlp : link (addr p) (port p) = p := link_addr_port p
    rcases port_split p hpp with hp0 | hp0 | hp0 <;> rw [hpb, hp0] at hlp
    · exact h16 hlp.symm
    · exact h7 hlp.symm
    · exact h3 hlp.symm
  have hplt : p < net.nodes.length := hold_lt p hpl hpa hpb
  have hpr2 : addr p ∉ net.reuse := hreuse_old _ hpa hpb hpr
  obtain ⟨hEpl, hEpp, hEpr, hEpe, hEpne⟩ := hcl p hplt hpp hpr2
  set Ep := enter net p with hEpdef
  have hEpab := hnotab Ep hEpl hEpr
  have hv : enter (F) p = Ep := by
    rw [hEval, if_neg h1, if_neg h2, if_neg h3, if_neg h4, if_neg h5,
      if_neg h6, if_neg h7, if_neg h8, if_neg h9, if_neg h10, if_neg h11,
      if_neg h12, if_neg h13, if_neg h14, if_neg h15, if_neg h16]
    exact hE2old p hplt hpa hpb
  have hEpy2 : Ep ≠ link y 2 := by
    intro h
    have hc := congrArg (enter net) h
    rw [hEpe] at hc
    rw [← he4def] at hc
    rcases ht4s with ⟨hy2t3, _⟩ | ⟨_, hy2t2, _⟩ | ⟨_, _, hy2e1, _⟩ |
      ⟨_, _, _, ht4⟩
    · rcases ht3s with ⟨_, ht3⟩ | ⟨_, _, ht3⟩ | ⟨_, _, ht3⟩
      · rw [ht3] at hy2t3
        exact absurd hy2t3 hy2y0
      · rw [ht3] at hy2t3
        exact absurd hy2t3 hy2b0
      · rw [ht3] at hy2t3
        have hc2 := congrArg (enter net) hy2t3
        rw [he3e] at hc2
        rw [← he4def] at hc2
        rw [hc2] at hc
        exact h5 hc
    · rcases ht2s with ⟨_, ht2⟩ | ⟨_, ht2⟩
      · rw [ht2] at hy2t2
        exact absurd hy2t2 hy2b0
      · rw [ht2] at hy2t2
        have hc2 := congrArg (enter net) hy2t2
        rw [he2e] at hc2
        rw [← he4def] at hc2
        rw [hc2] at hc
        exact h2 hc
    · have hc2 := congrArg (enter net) hy2e1
      rw [he1e] at hc2
      rw [← he4def] at hc2
      rw [hc2] at hc
      exact h4 hc
    · rw [← ht4] at hc
      exact h9 hc
  have hEpx2 : Ep ≠ link x 2 := by
    intro h
    have hc := congrArg (enter net) h
    rw [hEpe] at hc
    rw [← he2def] at hc
    rcases ht2s with ⟨hx2e1, _⟩ | ⟨_, ht2⟩
    · have hc2 := congrArg (enter net) hx2e1
      rw [he1e] at hc2
      rw [← he2def] at hc2
      rw [hc2] at hc
      exact h4 hc
    · rw [← ht2] at hc
      exact h13 hc
  have hEpx1 : Ep ≠ link x 1 := by
    intro h
    have hc := congrArg (enter net) h
    rw [hEpe] at hc
    rw [← he1def] at hc
    rw [← ht1v] at hc
    exact h15 hc
  have hEpy1 : Ep ≠ link y 1 := by
    intro h
    have hc := congrArg (enter net) h
    rw [hEpe] at hc
    rw [← he3def] at hc
    rcases ht3s with ⟨hy1t2, _⟩ | ⟨_, hy1e1, _⟩ | ⟨_, _, ht3⟩
    · rcases ht2s with ⟨_, ht2⟩ | ⟨_, ht2⟩
      · rw [ht2] at hy1t2
        exact absurd hy1t2 (link_ne _ _ _ _ (by norm_num) (by norm_num)
          (Or.inl hyb))
      · rw [ht2] at hy1t2
        have hc2 := congrArg (enter net) hy1t2
        rw [he2e] at hc2
        rw [← he3def] at hc2
        rw [hc2] at hc
        exact h2 hc
    · have hc2 := congrArg (enter net) hy1e1
      rw [he1e] at hc2
      rw [← he3def] at hc2
      rw [hc2] at hc
      exact h4 hc
    · rw [← ht3] at hc
      exact h11 hc
  have hEpt4 : Ep ≠ t4 := by
    rcases ht4s with ⟨_, ht4⟩ | ⟨_, _, ht4⟩ | ⟨_, _, _, ht4⟩ |
      ⟨_, _, _, ht4⟩ <;> rw [ht4]
    · exact (hold_a Ep hEpl hEpr 0 (by norm_num)).1
    · intro h
      have hc := congrArg (enter net) h
      rw [hEpe, hEy0] at hc
      exact h10 hc
    · exact (hold_a Ep hEpl hEpr 0 (by norm_num)).2
    · intro h
      have hc := congrArg (enter net) h
      rw [hEpe, he4e] at hc
      exact h1 hc
  have hEpx0 : Ep ≠ link x 0 := by
    intro h
    have hc := congrArg (enter net) h
    rw [hEpe, hact] at hc
    exact h14 hc
  have hEpt3 : Ep ≠ t3 := by
    rcases ht3s with ⟨_, ht3⟩ | ⟨_, _, ht3⟩ | ⟨_, _, ht3⟩ <;> rw [ht3]
    · intro h
      have hc := congrArg (enter net) h
      rw [hEpe, hEy0] at hc
      exact h10 hc
    · exact (hold_a Ep hEpl hEpr 0 (by norm_num)).2
    · intro h
      have hc := congrArg (enter net) h
      rw [hEpe, he3e] at hc
      exact h5 hc
  have hEpt2 : Ep ≠ t2 := by
    rcases ht2s with ⟨_, ht2⟩ | ⟨_, ht2⟩ <;> rw [ht2]
    · exact (hold_a Ep hEpl hEpr 0 (by norm_num)).2
    · intro h
      have hc := congrArg (enter net) h
      rw [hEpe, he2e] at hc
      exact h2 hc
  have hEpy0 : Ep ≠ link y 0 := by
    intro h
    have hc := congrArg (enter net) h
    rw [hEpe, hEy0] at hc
    exact h10 hc
  have hEpt1 : Ep ≠ t1 := by
    rw [ht1v]
    intro h
    have hc := congrArg (enter net) h
    rw [hEpe, he1e] at hc
    exact h4 hc
  rw [hv, hEval, if_neg hEpy2, if_neg hEpx2,
    if_neg (hold_a Ep hEpl hEpr 2 (by norm_num)).2, if_neg hEpx1,
    if_neg hEpy1, if_neg (hold_a Ep hEpl hEpr 2 (by norm_num)).1,
    if_neg (hold_a Ep hEpl hEpr 1 (by norm_num)).2,
    if_neg (hold_a Ep hEpl hEpr 1 (by norm_num)).1,
    if_neg hEpt4, if_neg hEpx0, if_neg hEpt3,
    if_neg (hold_a Ep hEpl hEpr 0 (by norm_num)).1,
    if_neg hEpt2, if_neg hEpy0, if_neg hEpt1,
    if_neg (hold_a Ep hEpl hEpr 0 (by norm_num)).2,
    hE2old Ep hEpl hEpab.1 hEpab.2]
  exact hEpe


set_option maxHeartbeats 8000000 in
theorem rewrite_comm_preserves (net : Net) (x y : Nat)
    (hlen : net.nodes.length % 4 = 0) (hnd : net.reuse.Nodup)
    (hbr : ∀ r ∈ net.reuse, r ≠ 0 ∧ 4 * r + 3 < net.nodes.length)
    (hcl : ∀ p < net.nodes.length, port p ≠ 3 → addr p ∉ net.reuse →
      (enter net p < net.nodes.length ∧ port (enter net p) ≠ 3 ∧
        addr (enter net p) ∉ net.reuse ∧
        enter net (enter net p) = p ∧ enter net p ≠ p))
    (hx3 : 4 * x + 3 < net.nodes.length) (hxr : x ∉ net.reuse)
    (hy3 : 4 * y + 3 < net.nodes.length) (hyr : y ∉ net.reuse)
    (hxy : x ≠ y)
    (hact : enter net (link x 0) = link y 0)
    (hk : ¬ kind net x = kind net y) :
    Reciprocal (rewrite net x y) := by
  -- closure facts for the six ports of x and y
  obtain ⟨he1l, he1p, he1r, he1e, he1ne⟩ :=
    hcl (link x 1) (link_lt _ _ _ (by norm_num) hx3)
      (by rw [port_link _ _ (by norm_num)]; norm_num)
      (by rw [addr_link _ _ (by norm_num)]; exact hxr)
  obtain ⟨he2l, he2p, he2r, he2e, he2ne⟩ :=
    hcl (link x 2) (link_lt _ _ _ (by norm_num) hx3)
      (by rw [port_link _ _ (by norm_num)]; norm_num)
      (by rw [addr_link _ _ (by norm_num)]; exact hxr)
  obtain ⟨he3l, he3p, he3r, he3e, he3ne⟩ :=
    hcl (link y 1) (link_lt _ _ _ (by norm_num) hy3)
      (by rw [port_link _ _ (by norm_num)]; norm_num)
      (by rw [addr_link _ _ (by norm_num)]; exact hyr)
  obtain ⟨he4l, he4p, he4r, he4e, he4ne⟩ :=
    hcl (link y 2) (link_lt _ _ _ (by norm_num) hy3)
      (by rw [port_link _ _ (by norm_num)]; norm_num)
      (by rw [addr_link _ _ (by norm_num)]; exact hyr)
  obtain ⟨hx0l, hx0p, hx0r, hx0e, hx0ne⟩ :=
    hcl (link x 0) (link_lt _ _ _ (by norm_num) hx3)
      (by rw [port_link _ _ (by norm_num)]; norm_num)
      (by rw [addr_link _ _ (by norm_num)]; exact hxr)
  -- E x0 = y0 and E y0 = x0
  have hEy0 : enter net (link y 0) = link x 0 := by
    rw [← hact]
    exact hx0e
  set e1 := enter net (link x 1) with he1def
  set e2 := enter net (link x 2) with he2def
  set e3 := enter net (link y 1) with he3def
  set e4 := enter net (link y 2) with he4def
  -- the two allocations
  set n1 := (new_node net (kind net x)).1 with hn1def
  set a := (new_node net (kind net x)).2 with hadef
  set n2 := (new_node n1 (kind n1 y)).1 with hn2def
  set b := (new_node n1 (kind n1 y)).2 with hbdef
  have haspec : (net.reuse = a :: n1.reuse) ∨
      (net.reuse = [] ∧ 4 * a = net.nodes.length) :=
    new_node_node_spec net _ hlen
  have hn1mod : n1.nodes.length % 4 = 0 := new_node_len_mod net _ hlen
  have hn1ge : net.nodes.length ≤ n1.nodes.length := new_node_len_ge net _
  have hn1reuse : n1.reuse = net.reuse.tail := new_node_reuse net _
  have hbr1 : ∀ r ∈ n1.reuse, r ≠ 0 ∧ 4 * r + 3 < n1.nodes.length := by
    intro r hr
    rw [hn1reuse] at hr
    have h2 := hbr r (List.mem_of_mem_tail hr)
    exact ⟨h2.1, by omega⟩
  have hbspec : (n1.reuse = b :: n2.reuse) ∨
      (n1.reuse = [] ∧ 4 * b = n1.nodes.length) :=
    new_node_node_spec n1 _ hn1mod
  have hn2mod : n2.nodes.length % 4 = 0 := new_node_len_mod n1 _ hn1mod
  have hn2ge : n1.nodes.length ≤ n2.nodes.length := new_node_len_ge n1 _
  have hn2reuse : n2.reuse = n1.reuse.tail := new_node_reuse n1 _
  have hge : net.nodes.length ≤ n2.nodes.length := le_trans hn1ge hn2ge
  -- node distinctness
  have hax : a ≠ x := by
    rcases haspec with h | ⟨h1, h2⟩
    · intro he
      exact hxr (by rw [← he, h]; simp)
    · omega
  have hay : a ≠ y := by
    rcases haspec with h | ⟨h1, h2⟩
    · intro he
      exact hyr (by rw [← he, h]; simp)
    · omega
  have haL1 : 4 * a + 3 < n1.nodes.length := by
    rcases haspec with h | ⟨h1, h2⟩
    · have h2 := (hbr a (by rw [h]; simp)).2
      omega
    · rw [new_node_len_fresh net _ h1]
      omega
  have haL : 4 * a + 3 < n2.nodes.length := by omega
  have hbmem : b ∈ n1.reuse ∨ 4 * b = n1.nodes.length := by
    rcases hbspec with h | ⟨h1, h2⟩
    · left
      rw [h]
      simp
    · right
      exact h2
  have hbx : b ≠ x := by
    rcases hbmem with h | h
    · intro he
      rw [hn1reuse] at h
      exact hxr (List.mem_of_mem_tail (he ▸ h))
    · omega
  have hby : b ≠ y := by
    rcases hbmem with h | h
    · intro he
      rw [hn1reuse] at h
      exact hyr (List.mem_of_mem_tail (he ▸ h))
    · omega
  have hbL : 4 * b + 3 < n2.nodes.length := by
    rcases hbspec with h | ⟨h1, h2⟩
    · have h3 := (hbr1 b (by rw [h]; simp)).2
      omega
    · rw [new_node_len_fresh n1 _ h1]
      omega
  have hab : a ≠ b := by
    rcases hbspec with h | ⟨h1, h2⟩
    · rcases haspec with h3 | ⟨h3, h4⟩
      · intro he
        have h5 : a ∉ n1.reuse := by
          rw [h3] at hnd
          exact (List.nodup_cons.mp hnd).1
        exact h5 (by rw [he, h]; simp)
      · rw [hn1reuse, h3] at h
        simp at h
    · rcases haspec with h3 | ⟨h3, h4⟩
      · have h5 : n1.nodes.length = net.nodes.length :=
          new_node_len_pop net _ (by rw [h3]; simp)
        have h6 := (hbr a (by rw [h3]; simp)).2
        omega
      · have h5 : n1.nodes.length = net.nodes.length + 4 :=
          new_node_len_fresh net _ h3
        omega
  have hnotab : ∀ q, q < net.nodes.length → addr q ∉ net.reuse →
      addr q ≠ a ∧ addr q ≠ b := by
    intro q hq hr
    constructor
    · rcases haspec with h | ⟨h1, h2⟩
      · intro he
        exact hr (by rw [he, h]; simp)
      · intro he
        unfold addr at he
        omega
    · rcases hbspec with h | ⟨h1, h2⟩
      · intro he
        apply hr
        rw [he]
        exact List.mem_of_mem_tail (by rw [← hn1reuse, h]; simp)
      · intro he
        unfold addr at he
        omega
  have hE2old : ∀ q, q < net.nodes.length → addr q ≠ a → addr q ≠ b →
      enter n2 q = enter net q := by
    intro q hq ha2 hb2
    rw [hn2def]
    rw [new_node_enter_other n1 _ q hn1mod (by omega)
      (by rw [← hbdef]; exact hb2)]
    rw [hn1def]
    exact new_node_enter_other net _ q hlen hq (by rw [← hadef]; exact ha2)
  have hEa : ∀ i, i < 3 → enter n2 (link a i) = link a i := by
    intro i hi
    rw [hn2def]
    rw [new_node_enter_other n1 _ _ hn1mod (link_lt _ _ _ (by omega) haL1)
      (by rw [addr_link _ _ (by omega), ← hbdef]; exact hab)]
    rw [hn1def, hadef]
    exact new_node_enter_self net _ i hi hlen (fun r hr => (hbr r hr).2)
  have hEb : ∀ i, i < 3 → enter n2 (link b i) = link b i := by
    intro i hi
    rw [hn2def, hbdef]
    exact new_node_enter_self n1 _ i hi hn1mod (fun r hr => (hbr1 r hr).2)
  -- bounds of the twelve ports of x, y, a, b in n2
  have hxL2 : ∀ i, i < 4 → link x i < n2.nodes.length :=
    fun i hi => link_lt _ _ _ hi (by omega)
  have hyL2 : ∀ i, i < 4 → link y i < n2.nodes.length :=
    fun i hi => link_lt _ _ _ hi (by omega)
  have haL2 : ∀ i, i < 4 → link a i < n2.nodes.length :=
    fun i hi => link_lt _ _ _ hi haL
  have hbL2 : ∀ i, i < 4 → link b i < n2.nodes.length :=
    fun i hi => link_lt _ _ _ hi hbL
  -- the old partners are old valid ports, not on a or b
  have hxab : addr (link x 1) ≠ a ∧ addr (link x 1) ≠ b := by
    rw [addr_link _ _ (by norm_num)]
    exact ⟨fun h => hax h.symm, fun h => hbx h.symm⟩
  have he1ab : addr e1 ≠ a ∧ addr e1 ≠ b := hnotab e1 he1l he1r
  have he2ab : addr e2 ≠ a ∧ addr e2 ≠ b := hnotab e2 he2l he2r
  have he3ab : addr e3 ≠ a ∧ addr e3 ≠ b := hnotab e3 he3l he3r
  have he4ab : addr e4 ≠ a ∧ addr e4 ≠ b := hnotab e4 he4l he4r
  -- ports of a and b differ from every old valid port
  have hold_a : ∀ q, q < net.nodes.length → addr q ∉ net.reuse →
      ∀ i, i < 4 → q ≠ link a i ∧ q ≠ link b i := by
    intro q hq hr i hi
    obtain ⟨h1, h2⟩ := hnotab q hq hr
    constructor
    · intro he
      exact h1 (by rw [he, addr_link _ _ hi])
    · intro he
      exact h2 (by rw [he, addr_link _ _ hi])
  -- the initial reads of the rewrite, at n2
  have hT1 : enter n2 (link x 1) = e1 :=
    hE2old _ (link_lt _ _ _ (by norm_num) hx3) hxab.1 hxab.2
  have hTx2 : enter n2 (link x 2) = e2 := by
    refine hE2old _ (link_lt _ _ _ (by norm_num) hx3) ?_ ?_ <;>
      rw [addr_link _ _ (by norm_num)]
    · exact fun h => hax h.symm
    · exact fun h => hbx h.symm
  have hTy1 : enter n2 (link y 1) = e3 := by
    refine hE2old _ (link_lt _ _ _ (by norm_num) hy3) ?_ ?_ <;>
      rw [addr_link _ _ (by norm_num)]
    · exact fun h => hay h.symm
    · exact fun h => hby h.symm
  have hTy2 : enter n2 (link y 2) = e4 := by
    refine hE2old _ (link_lt _ _ _ (by norm_num) hy3) ?_ ?_ <;>
      rw [addr_link _ _ (by norm_num)]
    · exact fun h => hay h.symm
    · exact fun h => hby h.symm
  -- the eight connects
  set t1 := enter n2 (link x 1) with ht1def
  set net3 := connect n2 (link b 0) t1 with hn3def
  set t2 := enter net3 (link x 2) with ht2def
  set net4 := connect net3 (link y 0) t2 with hn4def
  set t3 := enter net4 (link y 1) with ht3def
  set net5 := connect net4 (link a 0) t3 with hn5def
  set t4 := enter net5 (link y 2) with ht4def
  set net6 := connect net5 (link x 0) t4 with hn6def
  set net7 := connect net6 (link a 1) (link b 1) with hn7def
  set net8 := connect net7 (link a 2) (link y 1) with hn8def
  set net9 := connect net8 (link x 1) (link b 2) with hn9def
  have hrw : rewrite net x y = connect net9 (link x 2) (link y 2) := by
    unfold SIC.rewrite
    rw [if_neg hk]
  have hL3 : net3.nodes.length = n2.nodes.length := by
    rw [hn3def]
    exact connect_length _ _ _
  have hL4 : net4.nodes.length = n2.nodes.length := by
    rw [hn4def, connect_length]
    exact hL3
  have hL5 : net5.nodes.length = n2.nodes.length := by
    rw [hn5def, connect_length]
    exact hL4
  have hL6 : net6.nodes.length = n2.nodes.length := by
    rw [hn6def, connect_length]
    exact hL5
  have hL7 : net7.nodes.length = n2.nodes.length := by
    rw [hn7def, connect_length]
    exact hL6
  have hL8 : net8.nodes.length = n2.nodes.length := by
    rw [hn8def, connect_length]
    exact hL7
  have hL9 : net9.nodes.length = n2.nodes.length := by
    rw [hn9def, connect_length]
    exact hL8
  have ht1v : t1 = e1 := by
    rw [ht1def]
    exact hT1
  have ht1L : t1 < n2.nodes.length := by
    rw [ht1v]
    omega
  have hE3 : ∀ q, enter net3 q =
      if q = t1 then link b 0 else if q = link b 0 then t1
      else enter n2 q := by
    intro q
    rw [hn3def]
    exact enter_connect n2 _ _ q (hbL2 0 (by norm_num)) ht1L
  have hx2b0 : link x 2 ≠ link b 0 :=
    link_ne _ _ _ _ (by norm_num) (by norm_num) (Or.inr (by norm_num))
  have ht2s : (link x 2 = e1 ∧ t2 = link b 0) ∨
      (link x 2 ≠ e1 ∧ t2 = e2) := by
    by_cases h1 : link x 2 = e1
    · left
      refine ⟨h1, ?_⟩
      rw [ht2def, hE3, if_pos (by rw [ht1v]; exact h1)]
    · right
      refine ⟨h1, ?_⟩
      rw [ht2def, hE3, if_neg (by rw [ht1v]; exact h1), if_neg hx2b0]
      exact hTx2
  have ht2L : t2 < n2.nodes.length := by
    rcases ht2s with ⟨_, h⟩ | ⟨_, h⟩ <;> rw [h]
    · exact hbL2 0 (by norm_num)
    · omega
  have hE4 : ∀ q, enter net4 q =
      if q = t2 then link y 0 else if q = link y 0 then t2
      else enter net3 q := by
    intro q
    rw [hn4def]
    exact enter_connect net3 _ _ q (by rw [hL3]; exact hyL2 0 (by norm_num))
      (by rw [hL3]; exact ht2L)
  have hy1y0 : link y 1 ≠ link y 0 :=
    link_ne _ _ _ _ (by norm_num) (by norm_num) (Or.inr (by norm_num))
  have hy1b0 : link y 1 ≠ link b 0 :=
    link_ne _ _ _ _ (by norm_num) (by norm_num) (Or.inr (by norm_num))
  have ht3s : (link y 1 = t2 ∧ t3 = link y 0) ∨
      (link y 1 ≠ t2 ∧ link y 1 = e1 ∧ t3 = link b 0) ∨
      (link y 1 ≠ t2 ∧ link y 1 ≠ e1 ∧ t3 = e3) := by
    by_cases h1 : link y 1 = t2
    · left
      refine ⟨h1, ?_⟩
      rw [ht3def, hE4, if_pos h1]
    · by_cases h2 : link y 1 = e1
      · right; left
        refine ⟨h1, h2, ?_⟩
        rw [ht3def, hE4, if_neg h1, if_neg hy1y0, hE3,
          if_pos (by rw [ht1v]; exact h2)]
      · right; right
        refine ⟨h1, h2, ?_⟩
        rw [ht3def, hE4, if_neg h1, if_neg hy1y0, hE3,
          if_neg (by rw [ht1v]; exact h2), if_neg hy1b0]
        exact hTy1
  have ht3L : t3 < n2.nodes.length := by
    rcases ht3s with ⟨_, h⟩ | ⟨_, _, h⟩ | ⟨_, _, h⟩ <;> rw [h]
    · exact hyL2 0 (by norm_num)
    · exact hbL2 0 (by norm_num)
    · omega
  have hE5 : ∀ q, enter net5 q =
      if q = t3 then link a 0 else if q = link a 0 then t3
      else enter net4 q := by
    intro q
    rw [hn5def]
    exact enter_connect net4 _ _ q (by rw [hL4]; exact haL2 0 (by norm_num))
      (by rw [hL4]; exact ht3L)
  have hy2a0 : link y 2 ≠ link a 0 :=
    link_ne _ _ _ _ (by norm_num) (by norm_num) (Or.inr (by norm_num))
  have hy2y0 : link y 2 ≠ link y 0 :=
    link_ne _ _ _ _ (by norm_num) (by norm_num) (Or.inr (by norm_num))
  have hy2b0 : link y 2 ≠ link b 0 :=
    link_ne _ _ _ _ (by norm_num) (by norm_num) (Or.inr (by norm_num))
  have ht4s : (link y 2 = t3 ∧ t4 = link a 0) ∨
      (link y 2 ≠ t3 ∧ link y 2 = t2 ∧ t4 = link y 0) ∨
      (link y 2 ≠ t3 ∧ link y 2 ≠ t2 ∧ link y 2 = e1 ∧ t4 = link b 0) ∨
      (link y 2 ≠ t3 ∧ link y 2 ≠ t2 ∧ link y 2 ≠ e1 ∧ t4 = e4) := by
    by_cases h1 : link y 2 = t3
    · left
      refine ⟨h1, ?_⟩
      rw [ht4def, hE5, if_pos h1]
    · by_cases h2 : link y 2 = t2
      · right; left
        refine ⟨h1, h2, ?_⟩
        rw [ht4def, hE5, if_neg h1, if_neg hy2a0, hE4, if_pos h2]
      · by_cases h3 : link y 2 = e1
        · right; right; left
          refine ⟨h1, h2, h3, ?_⟩
          rw [ht4def, hE5, if_neg h1, if_neg hy2a0, hE4, if_neg h2,
            if_neg hy2y0, hE3, if_pos (by rw [ht1v]; exact h3)]
        · right; right; right
          refine ⟨h1, h2, h3, ?_⟩
          rw [ht4def, hE5, if_neg h1, if_neg hy2a0, hE4, if_neg h2,
            if_neg hy2y0, hE3, if_neg (by rw [ht1v]; exact h3),
            if_neg hy2b0]
          exact hTy2
  have ht4L : t4 < n2.nodes.length := by
    rcases ht4s with ⟨_, h⟩ | ⟨_, _, h⟩ | ⟨_, _, _, h⟩ | ⟨_, _, _, h⟩ <;>
      rw [h]
    · exact haL2 0 (by norm_num)
    · exact hyL2 0 (by norm_num)
    · exact hbL2 0 (by norm_num)
    · omega
  have hE6 : ∀ q, enter net6 q =
      if q = t4 then link x 0 else if q = link x 0 then t4
      else enter net5 q := by
    intro q
    rw [hn6def]
    exact enter_connect net5 _ _ q (by rw [hL5]; exact hxL2 0 (by norm_num))
      (by rw [hL5]; exact ht4L)
  have hE7 : ∀ q, enter net7 q =
      if q = link b 1 then link a 1 else if q = link a 1 then link b 1
      else enter net6 q := by
    intro q
    rw [hn7def]
    exact enter_connect net6 _ _ q (by rw [hL6]; exact haL2 1 (by norm_num))
      (by rw [hL6]; exact hbL2 1 (by norm_num))
  have hE8 : ∀ q, enter net8 q =
      if q = link y 1 then link a 2 else if q = link a 2 then link y 1
      else enter net7 q := by
    intro q
    rw [hn8def]
    exact enter_connect net7 _ _ q (by rw [hL7]; exact haL2 2 (by norm_num))
      (by rw [hL7]; exact hyL2 1 (by norm_num))
  have hE9 : ∀ q, enter net9 q =
      if q = link b 2 then link x 1 else if q = link x 1 then link b 2
      else enter net8 q := by
    intro q
    rw [hn9def]
    exact enter_connect net8 _ _ q (by rw [hL8]; exact hxL2 1 (by norm_num))
      (by rw [hL8]; exact hbL2 2 (by norm_num))
  have hEF : ∀ q, enter (connect net9 (link x 2) (link y 2)) q =
      if q = link y 2 then link x 2 else if q = link x 2 then link y 2
      else enter net9 q := by
    intro q
    exact enter_connect net9 _ _ q (by rw [hL9]; exact hxL2 2 (by norm_num))
      (by rw [hL9]; exact hyL2 2 (by norm_num))
  have hyx : y ≠ x := Ne.symm hxy
  have hxa : x ≠ a := Ne.symm hax
  have hya : y ≠ a := Ne.symm hay
  have hxb : x ≠ b := Ne.symm hbx
  have hyb : y ≠ b := Ne.symm hby
  have hba : b ≠ a := Ne.symm hab
  have hFreuse : (connect net9 (link x 2) (link y 2)).reuse = n2.reuse := by
    rw [connect_reuse, hn9def, connect_reuse, hn8def, connect_reuse,
      hn7def, connect_reuse, hn6def, connect_reuse, hn5def, connect_reuse,
      hn4def, connect_reuse, hn3def, connect_reuse]
  have hold_lt : ∀ q, q < n2.nodes.length → addr q ≠ a → addr q ≠ b →
      q < net.nodes.length := by
    intro q hq ha2 hb2
    unfold addr at ha2 hb2
    rcases haspec with h | ⟨h1, h2⟩
    · have h3 : n1.nodes.length = net.nodes.length :=
        new_node_len_pop net _ (by rw [h]; simp)
      rcases hbspec with h4 | ⟨h4, h5⟩
      · have h6 : n2.nodes.length = n1.nodes.length :=
          new_node_len_pop n1 _ (by rw [h4]; simp)
        omega
      · have h6 : n2.nodes.length = n1.nodes.length + 4 :=
          new_node_len_fresh n1 _ h4
        omega
    · have h3 : n1.nodes.length = net.nodes.length + 4 :=
        new_node_len_fresh net _ h1
      have h4 : n1.reuse = [] := by rw [hn1reuse, h1]; rfl
      rcases hbspec with h5 | ⟨h5, h6⟩
      · rw [h4] at h5
        exact absurd h5 (by simp)
      · have h7 : n2.nodes.length = n1.nodes.length + 4 :=
          new_node_len_fresh n1 _ h5
        omega
  have hreuse_old : ∀ m, m ≠ a → m ≠ b → m ∉ n2.reuse →
      m ∉ net.reuse := by
    intro m hma hmb hm2
    rcases haspec with h | ⟨h1, h2⟩
    · rcases hbspec with h4 | ⟨h4, h5⟩
      · rw [h, h4]
        simp only [List.mem_cons, not_or]
        exact ⟨hma, hmb, hm2⟩
      · rw [h, h4]
        simp only [List.mem_cons, not_or]
        exact ⟨hma, by simp⟩
    · rw [h1]
      simp
  have hx0t4 : link x 0 ≠ t4 := by
    rcases ht4s with ⟨_, ht⟩ | ⟨_, _, ht⟩ | ⟨_, _, _, ht⟩ |
      ⟨_, _, _, ht⟩ <;> rw [ht]
    · exact link_ne _ _ _ _ (by norm_num) (by norm_num) (Or.inl hxa)
    · exact link_ne _ _ _ _ (by norm_num) (by norm_num) (Or.inl hxy)
    · exact link_ne _ _ _ _ (by norm_num) (by norm_num) (Or.inl hxb)
    · intro h
      have hc := congrArg (enter net) h
      rw [hact, he4e] at hc
      exact absurd hc (link_ne _ _ _ _ (by norm_num) (by norm_num)
        (Or.inr (by norm_num)))
  have hEval : ∀ q, enter (connect net9 (link x 2) (link y 2)) q =
      if q = link y 2 then link x 2 else if q = link x 2 then link y 2
      else if q = link b 2 then link x 1 else if q = link x 1 then link b 2
      else if q = link y 1 then link a 2 else if q = link a 2 then link y 1
      else if q = link b 1 then link a 1 else if q = link a 1 then link b 1
      else if q = t4 then link x 0 else if q = link x 0 then t4
      else if q = t3 then link a 0 else if q = link a 0 then t3
      else if q = t2 then link y 0 else if q = link y 0 then t2
      else if q = t1 then link b 0 else if q = link b 0 then t1
      else enter n2 q := by
    intro q
    rw [hEF, hE9, hE8, hE7, hE6, hE5, hE4, hE3]
  have hFlen : (connect net9 (link x 2) (link y 2)).nodes.length =
      n2.nodes.length := by
    rw [connect_length]
    exact hL9
  rw [hrw]
  exact comm_enter_reciprocal net (connect net9 (link x 2) (link y 2)) n2
    x y a b t1 t2 t3 t4 e1 e2 e3 e4 hxy hax hay hbx hby hab hcl hact hEy0
    he1def he2def he3def he4def he1l he1r he1e he1ne he2l he2r he2e he2ne
    he3l he3r he3e he3ne he4l he4r he4e he4ne hnotab hold_a hE2old hold_lt
    hreuse_old ht1v ht2s ht3s ht4s hFlen hFreuse hEval

theorem scope_get_insert (m : Scope) (k : List Nat) (v : Nat) (k2 : List Nat) :
    scope_get (scope_insert m k v) k2 =
      if k2 = k then some v else scope_get m k2 := by
  induction m with
  | nil =>
    rw [scope_insert]
    by_cases h : k2 = k
    · subst h
      simp [scope_get]
    · simp [scope_get, Ne.symm h, h]
  | cons e rest ih =>
    obtain ⟨k1, v1⟩ := e
    rw [scope_insert]
    by_cases h1 : k1 = k
    · rw [if_pos h1]
      subst h1
      by_cases h : k2 = k1
      · subst h
        simp [scope_get]
      · simp [scope_get, Ne.symm h, h]
    · rw [if_neg h1]
      by_cases h : k2 = k
      · rw [if_pos h]
        subst h
        rw [scope_get]
        simp only [List.find?]
        rw [show ((k1, v1).1 == k2) = false by simp [h1]]
        have h3 := ih
        rw [if_pos rfl] at h3
        exact h3
      · rw [if_neg h]
        rw [scope_get, scope_get]
        simp only [List.find?]
        by_cases h2 : k1 = k2
        · rw [show ((k1, v1).1 == k2) = true by simp [h2]]
        · rw [show ((k1, v1).1 == k2) = false by simp [h2]]
          have h3 := ih
          rw [if_neg h] at h3
          exact h3

theorem encode_scope_none : ∀ (t : Term) (net : Net) (up : Nat)
    (scope : Scope) (vars : List (List Nat × Nat)) (nam : List Nat),
    scope_get ((encode_term net t up scope vars).2.1) nam = none ↔
      (nam ∉ binderNames t ∧ scope_get scope nam = none) := by
  intro t
  induction t with
  | Lam nm bod ihb =>
    intro net up scope vars nam
    rw [encode_term]
    simp only []
    rw [ihb, scope_get_insert]
    by_cases h : nam = nm
    · simp [h, binderNames]
    · simp [h, binderNames, List.mem_cons]
  | App fn arg ihf iha =>
    intro net up scope vars nam
    rw [encode_term]
    simp only []
    rw [iha, ihf]
    simp [binderNames, List.mem_append, not_or]
    tauto
  | Par fst snd ihf ihs =>
    intro net up scope vars nam
    rw [encode_term]
    simp only []
    rw [ihs, ihf]
    simp [binderNames, List.mem_append, not_or]
    tauto
  | Dup fst snd val nxt ihv ihn =>
    intro net up scope vars nam
    rw [encode_term]
    simp only []
    rw [ihn, ihv, scope_get_insert, scope_get_insert]
    by_cases h2 : nam = snd
    · rw [if_pos h2]
      simp [h2, binderNames]
    · rw [if_neg h2]
      by_cases h1 : nam = fst
      · rw [if_pos h1]
        simp [h1, binderNames]
      · rw [if_neg h1]
        simp [h1, h2, binderNames, List.mem_cons, List.mem_append, not_or]
        tauto
  | Var nm =>
    intro net up scope vars nam
    rw [encode_term]
    simp [binderNames]
  | Set =>
    intro net up scope vars nam
    rw [encode_term]
    simp [binderNames]

theorem encode_vars : ∀ (t : Term) (net : Net) (up : Nat) (scope : Scope)
    (vars : List (List Nat × Nat)),
    ((encode_term net t up scope vars).2.2.1).map Prod.fst =
      vars.map Prod.fst ++ varNames t := by
  intro t
  induction t with
  | Lam nm bod ihb =>
    intro net up scope vars
    rw [encode_term]
    simp only []
    rw [ihb]
    simp [varNames]
  | App fn arg ihf iha =>
    intro net up scope vars
    rw [encode_term]
    simp only []
    rw [iha, ihf]
    simp [varNames]
  | Par fst snd ihf ihs =>
    intro net up scope vars
    rw [encode_term]
    simp only []
    rw [ihs, ihf]
    simp [varNames]
  | Dup fst snd val nxt ihv ihn =>
    intro net up scope vars
    rw [encode_term]
    simp only []
    rw [ihn, ihv]
    simp [varNames]
  | Var nm =>
    intro net up scope vars
    rw [encode_term]
    simp [varNames]
  | Set =>
    intro net up scope vars
    rw [encode_term]
    simp [varNames]

theorem link_vars_unbound : ∀ (pend : List (List Nat × Nat)) (net : Net)
    (scope : Scope) (nam : List Nat),
    link_vars net scope pend = .error (.unbound nam) →
    nam ∈ pend.map Prod.fst ∧ scope_get scope nam = none := by
  intro pend
  induction pend with
  | nil =>
    intro net scope nam h
    rw [link_vars] at h
    exact absurd h (by simp)
  | cons e rest ih =>
    intro net scope nam h
    obtain ⟨nm, var⟩ := e
    rw [link_vars] at h
    rcases hg : scope_get scope nm with _ | next
    · rw [hg] at h
      simp only [Except.error.injEq, NetErr.unbound.injEq] at h
      subst h
      exact ⟨by simp, hg⟩
    · rw [hg] at h
      dsimp only [] at h
      split_ifs at h
      · obtain ⟨h1, h2⟩ := ih _ _ _ h
        exact ⟨by simp [h1], h2⟩
      · simp at h

theorem to_net_unbound_char (t : Term) (nam : List Nat)
    (h : to_net t = .error (.unbound nam)) :
    nam ∈ varNames t ∧ nam ∉ binderNames t := by
  rw [to_net] at h
  dsimp only [] at h
  rcases hlv : link_vars (encode_term ⟨[0, 2, 1, 4], []⟩ t 0 [] []).1
      (encode_term ⟨[0, 2, 1, 4], []⟩ t 0 [] []).2.1
      (encode_term ⟨[0, 2, 1, 4], []⟩ t 0 [] []).2.2.1 with e | n2
  · rw [hlv] at h
    simp only [Except.error.injEq] at h
    subst h
    obtain ⟨hm, hg⟩ := link_vars_unbound _ _ _ _ hlv
    constructor
    · have hv := encode_vars t ⟨[0, 2, 1, 4], []⟩ 0 [] []
      rw [hv] at hm
      simpa using hm
    · exact ((encode_scope_none t ⟨[0, 2, 1, 4], []⟩ 0 [] [] nam).mp hg).1
  · rw [hlv] at h
    simp at h

/-- Claim C10 (amended): an unbound-variable error names only a variable
bound by no `Lam` or `Dup` binder anywhere in the term, and when every
variable name matches some binder anywhere the error never occurs ("exactly
when" fails: a non-affine-use error can fire first, see the counterexample).
The global never-removed scope map indeed links a variable outside a
binder's body to that binder's port (`tOutside`), and a later-encoded binder
of the same name shadows the earlier one (`tShadow`). -/
theorem to_net_unbound :
    (∀ (t : Term) (nam : List Nat), to_net t = .error (.unbound nam) →
      nam ∈ varNames t ∧ nam ∉ binderNames t) ∧
    (∀ t : Term, (∀ nam ∈ varNames t, nam ∈ binderNames t) →
      ∀ nam, to_net t ≠ .error (.unbound nam)) ∧
    (∃ n, to_net tOutside = .ok n ∧ enter n (link 1 1) = link 2 1) ∧
    (∃ n, to_net tShadow = .ok n ∧ enter n (link 2 2) = link 3 1) := by
  refine ⟨fun t nam h => to_net_unbound_char t nam h, ?_,
    ⟨⟨[6, 2, 1, 4, 8, 9, 0, 1, 4, 5, 12, 1, 10, 14, 13, 0], []⟩,
      rfl, by decide⟩,
    ⟨⟨[6, 2, 1, 4, 8, 12, 0, 1, 4, 9, 13, 1, 5, 10, 16, 1, 14, 18, 17, 0],
      []⟩, rfl, by decide⟩⟩
  intro t hb nam h
  obtain ⟨h1, h2⟩ := to_net_unbound_char t nam h
  exact h2 (hb nam h1)

/-- Claim C10, counterexample to "exactly when": on `\\x //x x y` the second
use of `x` raises the non-affine-use error before `y` is reached, so `to_net`
does not report the unbound `y`. -/
theorem to_net_unbound_cex :
    to_net tDupUnbound = .error (.dupUse (bytes "x")) ∧
    bytes "y" ∈ varNames tDupUnbound ∧
    bytes "y" ∉ binderNames tDupUnbound := by
  refine ⟨rfl, by decide, by decide⟩

/-- Witness for C10: a genuine unbound error on `y`, and the no-error
direction on the fully bound `/\\x x *`. -/
theorem to_net_unbound_witness :
    (to_net (Term.Var (bytes "y")) = .error (.unbound (bytes "y")) ∧
      bytes "y" ∈ varNames (Term.Var (bytes "y")) ∧
      bytes "y" ∉ binderNames (Term.Var (bytes "y"))) ∧
    ((∀ nam ∈ varNames tBeta, nam ∈ binderNames tBeta) ∧
      ∀ nam, to_net tBeta ≠ .error (.unbound nam)) :=
  ⟨⟨rfl,
    (to_net_unbound.1 (Term.Var (bytes "y")) (bytes "y") rfl).1,
    (to_net_unbound.1 (Term.Var (bytes "y")) (bytes "y") rfl).2⟩,
   ⟨by decide, to_net_unbound.2.1 tBeta (by decide)⟩⟩

/-- Claim C6 (amended): commutation raises the live node count by exactly 2
and frees nothing, but it may consume up to two reclaimed indices: the free
list after is the free list before with its top two entries popped (so it is
unchanged only when it was already empty). -/
theorem rewrite_comm_effect (net : Net) (x y : Nat)
    (hk : kind net x ≠ kind net y)
    (hlen : 4 ∣ net.nodes.length)
    (hnd : net.reuse.Nodup)
    (hb : ∀ r ∈ net.reuse, 4 * r + 3 < net.nodes.length) :
    live_count (rewrite net x y) = live_count net + 2 ∧
    (rewrite net x y).reuse = net.reuse.drop 2 := by
  have hreuse : (rewrite net x y).reuse = net.reuse.tail.tail := by
    rw [rewrite, if_neg hk]
    simp only [connect_reuse, new_node_reuse]
  have hlength : (rewrite net x y).nodes.length =
      (if net.reuse.tail = [] then
        (if net.reuse = [] then net.nodes.length + 4 else net.nodes.length) + 4
       else
        (if net.reuse = [] then net.nodes.length + 4
         else net.nodes.length)) := by
    rw [rewrite, if_neg hk]
    simp only [connect_length, new_node_length, new_node_reuse]
  rcases hlen with ⟨m, hm⟩
  rcases hr : net.reuse with _ | ⟨r1, rest1⟩
  · have hreu : (rewrite net x y).reuse = [] := by rw [hreuse, hr]; rfl
    have hlen2 : (rewrite net x y).nodes.length = net.nodes.length + 8 := by
      rw [hlength, hr]
      simp
    refine ⟨?_, by simp [hreu, hr]⟩
    rw [live_count, live_count, hreu, hlen2, hr,
      card_range_filter_not_mem_nil, card_range_filter_not_mem_nil]
    have h1 : net.nodes.length + 8 = 4 * (m + 2) := by omega
    rw [h1, hm, Nat.mul_div_cancel_left _ (by norm_num),
      Nat.mul_div_cancel_left _ (by norm_num)]
  · rcases rest1 with _ | ⟨r2, rest⟩
    · have hreu : (rewrite net x y).reuse = [] := by rw [hreuse, hr]; rfl
      have hlen2 : (rewrite net x y).nodes.length = net.nodes.length + 4 := by
        rw [hlength, hr]
        simp
      refine ⟨?_, by simp [hreu, hr]⟩
      rw [live_count, live_count, hreu, hlen2, hr,
        card_range_filter_not_mem_nil]
      have hr1 : r1 < m := by
        have := hb r1 (by rw [hr]; exact List.mem_cons_self r1 [])
        omega
      rw [filter_not_mem_cons]
      have hmem : r1 ∈ (Finset.range m).filter
          (fun n => n ∉ ([] : List Nat)) := by
        simp [Finset.mem_filter, Finset.mem_range, hr1]
      rw [hm, Nat.mul_div_cancel_left _ (by norm_num),
        Finset.card_erase_of_mem hmem, card_range_filter_not_mem_nil]
      have h2 : (4 * m + 4) / 4 = m + 1 := by
        have h3 : 4 * m + 4 = 4 * (m + 1) := by omega
        rw [h3, Nat.mul_div_cancel_left _ (by norm_num)]
      omega
    · have hreu : (rewrite net x y).reuse = rest := by rw [hreuse, hr]; rfl
      have hlen2 : (rewrite net x y).nodes.length = net.nodes.length := by
        rw [hlength, hr]
        simp
      refine ⟨?_, by simp [hreu, hr]⟩
      rw [live_count, live_count, hreu, hlen2, hr, hm,
        Nat.mul_div_cancel_left _ (by norm_num)]
      rw [filter_not_mem_cons, filter_not_mem_cons]
      have hnd2 : r1 ≠ r2 ∧ r1 ∉ rest ∧ r2 ∉ rest := by
        rw [hr] at hnd
        rcases List.nodup_cons.mp hnd with ⟨h1, h2⟩
        rcases List.nodup_cons.mp h2 with ⟨h3, _⟩
        simp only [List.mem_cons] at h1
        exact ⟨fun he => h1 (Or.inl he), fun he => h1 (Or.inr he), h3⟩
      have hr1 : r1 < m := by
        have := hb r1 (by rw [hr]; exact List.mem_cons_self r1 _)
        omega
      have hr2 : r2 < m := by
        have := hb r2 (by rw [hr]; simp)
        omega
      have hmem2 : r2 ∈ (Finset.range m).filter (fun n => n ∉ rest) := by
        simp [Finset.mem_filter, Finset.mem_range, hr2, hnd2.2.2]
      have hmem1 : r1 ∈ ((Finset.range m).filter
          (fun n => n ∉ rest)).erase r2 := by
        refine Finset.mem_erase.mpr ⟨hnd2.1, ?_⟩
        simp [Finset.mem_filter, Finset.mem_range, hr1, hnd2.2.1]
      rw [Finset.card_erase_of_mem hmem1, Finset.card_erase_of_mem hmem2]
      have hc2 : 2 ≤ ((Finset.range m).filter (fun n => n ∉ rest)).card := by
        have hc1 : 1 ≤ (((Finset.range m).filter
            (fun n => n ∉ rest)).erase r2).card :=
          Finset.card_pos.mpr ⟨r1, hmem1⟩
        have := Finset.card_erase_of_mem hmem2
        omega
      omega

/-- Claim C6, counterexample: with a non-empty free list, commutation changes
the free list (it pops a reclaimed index for the first new node). -/
theorem rewrite_comm_freelist_cex :
    kind netComm 1 ≠ kind netComm 2 ∧
    (rewrite netComm 1 2).reuse ≠ netComm.reuse := by decide

/-- Witness for C6's amended theorem on the concrete active CON/FAN pair. -/
theorem rewrite_comm_effect_witness :
    kind netComm 1 ≠ kind netComm 2 ∧
    live_count (rewrite netComm 1 2) = live_count netComm + 2 ∧
    (rewrite netComm 1 2).reuse = netComm.reuse.drop 2 :=
  ⟨by decide,
   (rewrite_comm_effect netComm 1 2 (by decide) (by decide) (by decide)
     (by decide)).1,
   (rewrite_comm_effect netComm 1 2 (by decide) (by decide) (by decide)
     (by decide)).2⟩

/-- Claim C3 (amended): the original claim fails on reachable states (see the
counterexample), but the rewrite-local invariant holds: rewriting one active
pair of two distinct live non-root-free nodes of a well-formed net (reciprocal,
enter-closed, free of self-loops on live ports) yields a net whose live ports
are again reciprocal, for both the annihilation and the commutation rule. -/
theorem rewrite_preserves_reciprocity (net : Net) (x y : Nat)
    (hg : GoodNet net)
    (hx3 : 4 * x + 3 < net.nodes.length) (hxr : x ∉ net.reuse)
    (hy3 : 4 * y + 3 < net.nodes.length) (hyr : y ∉ net.reuse)
    (hxy : x ≠ y)
    (hact : enter net (link x 0) = link y 0) :
    Reciprocal (rewrite net x y) := by
  obtain ⟨hlen, hnd, hbr, hcl⟩ := hg
  by_cases hk : kind net x = kind net y
  · exact rewrite_anni_preserves net x y hcl hx3 hxr hy3 hyr hxy hk
  · exact rewrite_comm_preserves net x y hlen hnd hbr hcl hx3 hxr hy3 hyr
      hxy hact hk

/-- Witness for C3's amended theorem: the commutation of the active CON/FAN
pair of the concrete well-formed net `netGood` keeps all live ports
reciprocal. -/
theorem rewrite_preserves_reciprocity_witness :
    GoodNet netGood ∧ Reciprocal (rewrite netGood 1 2) :=
  ⟨by decide,
   rewrite_preserves_reciprocity netGood 1 2 (by decide) (by decide)
     (by decide) (by decide) (by decide) (by decide) (by decide)⟩

end SIC
